import Mathlib

/-!
# jankdb: a file-backed store with optional encryption at rest

A shallow embedding of `store.go`, `encrypt.go` and `cache.go`.

* Go `[]byte` values, and Go strings that carry file contents or base64 text, are lists
  of bytes; the conversions `string(b)` and `[]byte(s)` are the identity on them.
* Paths and passphrases are strings that the code only compares and concatenates.
* A Go `error` is `Option GoError` (`none` is `nil`); a `(value, error)` result is an
  `Except GoError value`.
* Effects are explicit: every `FileSystem` method takes the state of the file system and
  returns the state it leaves behind, also when it fails; `crypto/rand.Reader` is the list
  of bytes it will still deliver.
* Packages outside the repository (`encoding/json`, `encoding/base64`, `path/filepath`,
  `x/crypto/scrypt`, `crypto/aes`, `crypto/cipher`, `go-cache`) are parameters.
-/

namespace Jankdb

/-! ## Values -/

abbrev Byte := Fin 256

abbrev Bytes := List Byte

/-- A non-nil Go error: `errors.New(msg)` / `fmt.Errorf(msg)`, or `fmt.Errorf(msg + ": %w", cause)`. -/
inductive GoError where
  | new (msg : String)
  | wrap (msg : String) (cause : GoError)
deriving DecidableEq, Repr

deriving instance DecidableEq for Except

/-- The sentinel `os.ErrNotExist`. -/
def ErrNotExist : GoError := .new "file does not exist"

/-- The sentinel `io.EOF`. -/
def EOF : GoError := .new "EOF"

/-- The sentinel `io.ErrUnexpectedEOF`. -/
def ErrUnexpectedEOF : GoError := .new "unexpected EOF"

/-- Go slice expression `b[:hi]`; `none` is the run-time panic "slice bounds out of range".
The check is against the length, which is at most the capacity Go checks against. -/
def sliceTo (b : Bytes) (hi : Nat) : Option Bytes :=
  if hi ≤ b.length then some (b.take hi) else none

/-- Go slice expression `b[lo:]`; `none` is the run-time panic "slice bounds out of range". -/
def sliceFrom (b : Bytes) (lo : Nat) : Option Bytes :=
  if lo ≤ b.length then some (b.drop lo) else none

/-! ## The random source -/

/-- The state of `crypto/rand.Reader`: the bytes it will still deliver. -/
abbrev RandReader := List Byte

/-- `io.ReadFull(rand.Reader, buf)` with `len(buf) = n`: the buffer is filled, or the read
fails, with `io.EOF` when no byte was read and `io.ErrUnexpectedEOF` when some were. -/
def ReadFull (rnd : RandReader) (n : Nat) : Except GoError Bytes × RandReader :=
  if n ≤ rnd.length then (.ok (rnd.take n), rnd.drop n)
  else if rnd.length = 0 then (.error EOF, [])
  else (.error ErrUnexpectedEOF, [])

/-! ## encrypt.go -/

/-- The packages `EncryptData` and `DecryptData` call. -/
structure Crypto where
  /-- The type `cipher.Block`. -/
  Block : Type
  /-- The type `cipher.AEAD`. -/
  AEAD : Type
  /-- The call `scrypt.Key([]byte(passphrase), salt, N, r, p, keyLen)`. -/
  Key : String → Bytes → Nat → Nat → Nat → Nat → Except GoError Bytes
  /-- The call `aes.NewCipher(key)`. -/
  NewCipher : Bytes → Except GoError Block
  /-- The call `cipher.NewGCM(block)`. -/
  NewGCM : Block → Except GoError AEAD
  /-- The call `gcm.NonceSize()`. -/
  NonceSize : AEAD → Nat
  /-- The call `gcm.Seal(nil, nonce, plaintext, nil)`. -/
  Seal : AEAD → Bytes → Bytes → Bytes
  /-- The call `gcm.Open(nil, nonce, ciphertext, nil)`. -/
  Open : AEAD → Bytes → Bytes → Except GoError Bytes
  /-- The call `base64.StdEncoding.EncodeToString(payload)`. -/
  EncodeToString : Bytes → Bytes
  /-- The call `base64.StdEncoding.DecodeString(s)`. -/
  DecodeString : Bytes → Except GoError Bytes

/-- EncryptData encrypts `plaintext` using a passphrase. Returns a base64-encoded ciphertext. -/
def EncryptData (c : Crypto) (passphrase : String) (plaintext : Bytes) (rnd : RandReader) :
    Except GoError Bytes × RandReader :=
  -- 1. Generate salt
  match ReadFull rnd 16 with
  | (.error err, rnd1) => (.error (.wrap "failed to read random salt" err), rnd1)
  | (.ok salt, rnd1) =>
    -- 2. Derive key from passphrase + salt using scrypt
    match c.Key passphrase salt 32768 8 1 32 with
    | .error err => (.error (.wrap "failed to derive key" err), rnd1)
    | .ok key =>
      -- 3. Create AES-GCM cipher
      match c.NewCipher key with
      | .error err => (.error (.wrap "failed to create cipher block" err), rnd1)
      | .ok block =>
        match c.NewGCM block with
        | .error err => (.error (.wrap "failed to create GCM" err), rnd1)
        | .ok gcm =>
          -- 4. Generate nonce
          match ReadFull rnd1 (c.NonceSize gcm) with
          | (.error err, rnd2) => (.error (.wrap "failed to read random nonce" err), rnd2)
          | (.ok nonce, rnd2) =>
            -- 5. Seal
            let ciphertext := c.Seal gcm nonce plaintext
            -- 6. Final payload = salt || nonce || ciphertext
            let payload := salt ++ nonce
            let payload := payload ++ ciphertext
            -- 7. Return base64-encoded
            (.ok (c.EncodeToString payload), rnd2)

/-- DecryptData decrypts a base64-encoded ciphertext string using the passphrase.
The outer `Option` is `none` when a slice expression panics. -/
def DecryptData (c : Crypto) (passphrase : String) (base64CipherText : Bytes) :
    Option (Except GoError Bytes) :=
  -- 1. Decode base64
  match c.DecodeString base64CipherText with
  | .error err => some (.error (.wrap "failed to base64-decode ciphertext" err))
  | .ok payload =>
    if payload.length < 16 then
      some (.error (.new "payload too short to contain salt"))
    else
      -- 2. Extract salt
      match sliceTo payload 16, sliceFrom payload 16 with
      | some salt, some rest =>
        match c.Key passphrase salt 32768 8 1 32 with
        | .error err => some (.error (.wrap "failed to derive key" err))
        | .ok key =>
          -- 3. Create AES-GCM
          match c.NewCipher key with
          | .error err => some (.error (.wrap "failed to create cipher block" err))
          | .ok block =>
            match c.NewGCM block with
            | .error err => some (.error (.wrap "failed to create GCM" err))
            | .ok gcm =>
              let nonceSize := c.NonceSize gcm
              if rest.length < nonceSize then
                some (.error (.new "ciphertext missing nonce"))
              else
                match sliceTo rest nonceSize, sliceFrom rest nonceSize with
                | some nonce, some ciphertext =>
                  -- 4. Open (decrypt)
                  match c.Open gcm nonce ciphertext with
                  | .error err => some (.error (.wrap "failed to decrypt data" err))
                  | .ok plaintext => some (.ok plaintext)
                | _, _ => none
      | _, _ => none

/-! ## filesystem.go -/

/-- The methods of the `FileSystem` interface that the store calls. The `os.FileInfo` that
`Stat` returns is dropped by both of its callers, so only its error is kept. -/
structure FileSystem (σ : Type) where
  ReadFile : String → σ → Except GoError Bytes × σ
  WriteFile : String → Bytes → Nat → σ → Option GoError × σ
  Stat : String → σ → Option GoError × σ
  MkdirAll : String → Nat → σ → Option GoError × σ
  Rename : String → String → σ → Option GoError × σ
  IsNotExist : Option GoError → Bool

/-- One call of a `FileSystem` method, with its arguments. -/
inductive FsCall where
  | ReadFile (path : String)
  | WriteFile (path : String) (data : Bytes) (perm : Nat)
  | Stat (path : String)
  | MkdirAll (path : String) (perm : Nat)
  | Rename (src dst : String)
deriving DecidableEq, Repr

/-- A file system state together with the calls made so far, each with the state it left. -/
structure Traced (σ : Type) where
  cur : σ
  log : List (FsCall × σ)

/-- The file system `fs`, recording every call and the state after it. -/
def traced {σ : Type} (fs : FileSystem σ) : FileSystem (Traced σ) where
  ReadFile path t :=
    let r := fs.ReadFile path t.cur
    (r.1, ⟨r.2, t.log ++ [(.ReadFile path, r.2)]⟩)
  WriteFile path data perm t :=
    let r := fs.WriteFile path data perm t.cur
    (r.1, ⟨r.2, t.log ++ [(.WriteFile path data perm, r.2)]⟩)
  Stat path t :=
    let r := fs.Stat path t.cur
    (r.1, ⟨r.2, t.log ++ [(.Stat path, r.2)]⟩)
  MkdirAll path perm t :=
    let r := fs.MkdirAll path perm t.cur
    (r.1, ⟨r.2, t.log ++ [(.MkdirAll path perm, r.2)]⟩)
  Rename src dst t :=
    let r := fs.Rename src dst t.cur
    (r.1, ⟨r.2, t.log ++ [(.Rename src dst, r.2)]⟩)
  IsNotExist := fs.IsNotExist

/-- A file system that is a map from paths to contents. A call listed in `faults` fails
with the given error and changes nothing. -/
structure MemFS where
  files : String → Option Bytes
  faults : FsCall → Option GoError

/-- The map `files` with `path` set to `content`. -/
def setFile (files : String → Option Bytes) (path : String) (content : Option Bytes) :
    String → Option Bytes :=
  fun q => if q = path then content else files q

/-- The operations of the map file system: `ReadFile` and `Stat` fail with `os.ErrNotExist`
on an absent path, `WriteFile` replaces the content, `Rename` moves the content and replaces
the destination, `MkdirAll` has nothing to do. -/
def memFS : FileSystem MemFS where
  ReadFile path w :=
    match w.faults (.ReadFile path) with
    | some err => (.error err, w)
    | none =>
      match w.files path with
      | none => (.error ErrNotExist, w)
      | some b => (.ok b, w)
  WriteFile path data perm w :=
    match w.faults (.WriteFile path data perm) with
    | some err => (some err, w)
    | none => (none, { w with files := setFile w.files path (some data) })
  Stat path w :=
    match w.faults (.Stat path) with
    | some err => (some err, w)
    | none =>
      match w.files path with
      | none => (some ErrNotExist, w)
      | some _ => (none, w)
  MkdirAll path perm w :=
    match w.faults (.MkdirAll path perm) with
    | some err => (some err, w)
    | none => (none, w)
  Rename src dst w :=
    match w.faults (.Rename src dst) with
    | some err => (some err, w)
    | none =>
      match w.files src with
      | none => (some ErrNotExist, w)
      | some b => (none, { w with files := setFile (setFile w.files src none) dst (some b) })
  IsNotExist err := decide (err = some ErrNotExist)

/-! ## cache.go -/

/-- A Go value of type `interface{}` as a `Cache[T]` meets it: the nil interface value, a
value that `x.(T)` accepts (its dynamic type is `T`, or implements `T` when `T` is an
interface type), or a value of another dynamic type. -/
inductive GoAny (T : Type) where
  | nil
  | ofType (v : T)
  | other
deriving DecidableEq, Repr

/-- The conversion of `v` to `interface{}` at a call that takes an `interface{}`. The nil
value of an interface type converts to the nil interface value; `nilInterface` tells which
values of `T` these are (none when `T` is not an interface type). -/
def toAny {T : Type} (nilInterface : T → Bool) (v : T) : GoAny T :=
  if nilInterface v then .nil else .ofType v

/-- The type assertion `tVal, ok := value.(T)`: it asserts that `value` is not nil and that
the value stored in it is of type `T`; `none` is `ok = false`. -/
def assertType {T : Type} : GoAny T → Option T
  | .ofType v => some v
  | _ => none

/-- The package `github.com/patrickmn/go-cache`, over the state `κ` of one `*gocache.Cache`
and the type `V` of the objects it stores. -/
structure GoCache (κ V : Type) where
  /-- The call `gocache.New(defaultExpiration, cleanupInterval)`. -/
  New : Int → Int → κ
  /-- The call `c.Set(key, val, d)`. -/
  Set : κ → String → V → Int → κ
  /-- The call `c.Get(key)`; `none` is `found = false`. -/
  Get : κ → String → Option V
  /-- The call `c.Delete(key)`. -/
  Delete : κ → String → κ

/-- The constant `gocache.DefaultExpiration`. -/
def DefaultExpiration : Int := 0

/-- Cache[T] is a thin wrapper around go-cache. -/
structure Cache (κ : Type) where
  c : κ

def NewCache {κ T : Type} (g : GoCache κ (GoAny T)) (defaultExpiration cleanupInterval : Int) :
    Cache κ :=
  { c := g.New defaultExpiration cleanupInterval }

/-- Set stores a T under a given key. -/
def Cache.Set {κ T : Type} (g : GoCache κ (GoAny T)) (nilInterface : T → Bool) (cache : Cache κ)
    (key : String) (val : T) : Cache κ :=
  { c := g.Set cache.c key (toAny nilInterface val) DefaultExpiration }

/-- Get retrieves the T stored under the key. -/
def Cache.Get {κ T : Type} (g : GoCache κ (GoAny T)) (zero : T) (cache : Cache κ)
    (key : String) : T × Bool :=
  match g.Get cache.c key with
  | none => (zero, false)
  | some value =>
    match assertType value with
    | none => (zero, false)
    | some tVal => (tVal, true)

/-- Delete removes a key from the cache. -/
def Cache.Delete {κ T : Type} (g : GoCache κ (GoAny T)) (cache : Cache κ) (key : String) :
    Cache κ :=
  { c := g.Delete cache.c key }

/-! ## store.go -/

/-- The packages the store calls, apart from those of `EncryptData` and `DecryptData`. -/
structure Packages (κ T : Type) where
  /-- The call `filepath.Join(elem...)`. -/
  Join : List String → String
  /-- The call `filepath.Dir(path)`. -/
  Dir : String → String
  /-- The call `json.MarshalIndent(v, "", "  ")`. -/
  MarshalIndent : T → Except GoError Bytes
  /-- The call `json.Unmarshal(data, &tmp)` on a fresh `var tmp T`, giving the filled `tmp`. -/
  Unmarshal : Bytes → Except GoError T
  /-- The zero value of `T`. -/
  zero : T
  /-- The values of `T` that are the nil value of an interface type. -/
  nilInterface : T → Bool
  crypto : Crypto
  gocache : GoCache κ (GoAny T)

/-- Store[T] is a generic store for any type T. The lock `mu` is left out: every method
holds it from entry to return. -/
structure Store (σ κ T : Type) where
  fs : FileSystem σ
  basePath : String
  subDir : String
  fileName : String
  data : T
  cache : Option (Cache κ)
  enableBackup : Bool
  encryptionKey : String

/-- StoreOptions defines the parameters for customizing a Store. -/
structure StoreOptions where
  SubDir : String
  FileName : String
  EnableBackup : Bool
  UseCache : Bool
  DefaultExpiration : Int
  CleanupInterval : Int
  EncryptionKey : String

/-- NewStore creates a new Store[T]. -/
def NewStore {σ κ T : Type} (P : Packages κ T) (fs : FileSystem σ) (basePath : String)
    (opts : StoreOptions) : Except GoError (Store σ κ T) :=
  let s : Store σ κ T :=
    { fs := fs
      basePath := basePath
      subDir := opts.SubDir
      fileName := opts.FileName
      data := P.zero
      cache := none
      enableBackup := opts.EnableBackup
      encryptionKey := opts.EncryptionKey }
  let s := if opts.UseCache then
      { s with cache := some (NewCache P.gocache opts.DefaultExpiration opts.CleanupInterval) }
    else s
  .ok s

/-- The path of the store's file: /basePath/subDir/fileName. -/
def Store.filePath {σ κ T : Type} (P : Packages κ T) (s : Store σ κ T) : String :=
  if s.subDir = "" then P.Join [s.basePath, s.fileName]
  else P.Join [s.basePath, s.subDir, s.fileName]

/-- atomicWriteFile writes data to .tmp, optionally backups .bak, then renames to final. -/
def atomicWriteFile {σ : Type} (fs : FileSystem σ) (finalPath : String) (data : Bytes)
    (enableBackup : Bool) (w : σ) : Option GoError × σ :=
  let tmpPath := finalPath ++ ".tmp"
  let bakPath := finalPath ++ ".bak"
  -- Backup old file
  let backup : Option GoError × σ :=
    if enableBackup then
      match fs.Stat finalPath w with
      | (none, w1) =>
        match fs.Rename finalPath bakPath w1 with
        | (some err, w2) => (some (.wrap "failed to rename old file to .bak" err), w2)
        | (none, w2) => (none, w2)
      | (some _, w1) => (none, w1)
    else (none, w)
  match backup with
  | (some err, w2) => (some err, w2)
  | (none, w2) =>
    -- Write to .tmp
    match fs.WriteFile tmpPath data 0o600 w2 with
    | (some err, w3) => (some (.wrap "failed to write .tmp file" err), w3)
    | (none, w3) =>
      -- Rename tmp -> final
      match fs.Rename tmpPath finalPath w3 with
      | (some err, w4) =>
        (some (.wrap ("failed to rename " ++ tmpPath ++ " -> " ++ finalPath) err), w4)
      | (none, w4) => (none, w4)

/-- Load reads T from the file. If the encryption key is set, the file is decrypted first.
The result is the returned error, the store and the file system after the call; the outer
`Option` is `none` when the call panics. -/
def Store.Load {σ κ T : Type} (P : Packages κ T) (s : Store σ κ T) (w : σ) :
    Option (Option GoError × Store σ κ T × σ) :=
  let path := s.filePath P
  match s.fs.Stat path w with
  | (err, w1) =>
    if s.fs.IsNotExist err then
      -- No file => do nothing
      some (none, s, w1)
    else
      match err with
      | some err => some (some (.wrap "failed to stat file" err), s, w1)
      | none =>
        -- Read raw bytes
        match s.fs.ReadFile path w1 with
        | (.error err, w2) => some (some (.wrap "failed to read file" err), s, w2)
        | (.ok bytes, w2) =>
          let decoded : Option (Except GoError T) :=
            if s.encryptionKey = "" then
              -- Plain JSON
              match P.Unmarshal bytes with
              | .error err => some (.error (.wrap "failed to unmarshal JSON" err))
              | .ok tmp => some (.ok tmp)
            else
              -- Decrypt
              match DecryptData P.crypto s.encryptionKey bytes with
              | none => none
              | some (.error err) => some (.error (.wrap "failed to decrypt data" err))
              | some (.ok plaintext) =>
                match P.Unmarshal plaintext with
                | .error err => some (.error (.wrap "failed to unmarshal decrypted JSON" err))
                | .ok tmp => some (.ok tmp)
          match decoded with
          | none => none
          | some (.error err) => some (some err, s, w2)
          | some (.ok tmp) =>
            let s1 := { s with data := tmp }
            let s2 := match s1.cache with
              | some cache =>
                { s1 with cache := some (Cache.Set P.gocache P.nilInterface cache "all" s1.data) }
              | none => s1
            some (none, s2, w2)

/-- Save writes T to disk, using atomic write and optional .bak backup. If the encryption key
is not empty, data is encrypted before writing. The result is the returned error, the file
system and the random source after the call. -/
def Store.Save {σ κ T : Type} (P : Packages κ T) (s : Store σ κ T) (w : σ) (rnd : RandReader) :
    Option GoError × σ × RandReader :=
  let path := s.filePath P
  let dir := P.Dir path
  -- Ensure directory
  match s.fs.MkdirAll dir 0o755 w with
  | (some err, w1) => (some (.wrap ("failed to create directory " ++ dir) err), w1, rnd)
  | (none, w1) =>
    -- 1) Marshal data to JSON
    match P.MarshalIndent s.data with
    | .error err => (some (.wrap "failed to marshal data as JSON" err), w1, rnd)
    | .ok bytes =>
      if s.encryptionKey ≠ "" then
        -- 2) Encrypt the JSON
        match EncryptData P.crypto s.encryptionKey bytes rnd with
        | (.error err, rnd1) => (some (.wrap "failed to encrypt data" err), w1, rnd1)
        | (.ok encrypted, rnd1) =>
          -- 3) Perform atomic write with the encrypted data
          match atomicWriteFile s.fs path encrypted s.enableBackup w1 with
          | (some err, w2) => (some (.wrap "failed to write encrypted data" err), w2, rnd1)
          | (none, w2) => (none, w2, rnd1)
      else
        -- 2) Plain JSON => atomic write
        match atomicWriteFile s.fs path bytes s.enableBackup w1 with
        | (some err, w2) => (some (.wrap "failed to write JSON data" err), w2, rnd)
        | (none, w2) => (none, w2, rnd)

/-- Get returns the in-memory data. -/
def Store.Get {σ κ T : Type} (s : Store σ κ T) : T :=
  s.data

/-- Set replaces the entire in-memory data. The result is the store and the file system
after the call. -/
def Store.Set {σ κ T : Type} (P : Packages κ T) (s : Store σ κ T) (val : T) (w : σ) :
    Store σ κ T × σ :=
  let s1 := { s with data := val }
  let s2 := match s1.cache with
    | some cache => { s1 with cache := some (Cache.Set P.gocache P.nilInterface cache "all" val) }
    | none => s1
  (s2, w)

/-! ## What the packages guarantee -/

/-- `base64.StdEncoding` decodes what it encoded. -/
def Base64RoundTrip (c : Crypto) : Prop :=
  ∀ b : Bytes, c.DecodeString (c.EncodeToString b) = .ok b

/-- An AEAD opens what it sealed under the same nonce. -/
def OpenSeal (c : Crypto) : Prop :=
  ∀ (g : c.AEAD) (nonce p : Bytes), nonce.length = c.NonceSize g →
    c.Open g nonce (c.Seal g nonce p) = .ok p

/-- With the parameters of `encrypt.go` (N = 32768, r = 8, p = 1, 32-byte key) `scrypt.Key`,
`aes.NewCipher` and `cipher.NewGCM` succeed, and the nonce of the GCM has 12 bytes. -/
def KeySetup (c : Crypto) : Prop :=
  ∀ (passphrase : String) (salt : Bytes), ∃ key block gcm,
    c.Key passphrase salt 32768 8 1 32 = .ok key ∧ c.NewCipher key = .ok block ∧
      c.NewGCM block = .ok gcm ∧ c.NonceSize gcm = 12

/-- The store was built by `NewStore fs basePath opts`; its data and cache may have changed
since, the other fields never do. -/
def Store.BuiltWith {σ κ T : Type} (s : Store σ κ T) (fs : FileSystem σ) (basePath : String)
    (opts : StoreOptions) : Prop :=
  s.fs = fs ∧ s.basePath = basePath ∧ s.subDir = opts.SubDir ∧ s.fileName = opts.FileName ∧
    s.enableBackup = opts.EnableBackup ∧ s.encryptionKey = opts.EncryptionKey

/-! ## An instance of the packages, for running the definitions -/

/-- The authentication tag of the sample cipher: 16 bytes of key and nonce. -/
def sampleTag (g nonce : Bytes) : Bytes :=
  (g ++ nonce ++ List.replicate 16 0).take 16

/-- A cipher that puts `sampleTag` before the plaintext, and a one-byte text header
in place of base64. -/
def sampleCrypto : Crypto where
  Block := Bytes
  AEAD := Bytes
  Key passphrase salt _ _ _ keyLen :=
    .ok ((salt ++ List.replicate keyLen (Fin.ofNat passphrase.length)).take keyLen)
  NewCipher key :=
    if key.length = 16 ∨ key.length = 24 ∨ key.length = 32 then .ok key
    else .error (.new "crypto/aes: invalid key size")
  NewGCM block := .ok block
  NonceSize _ := 12
  Seal g nonce plaintext := sampleTag g nonce ++ plaintext
  Open g nonce ciphertext :=
    if ciphertext.take 16 = sampleTag g nonce then .ok (ciphertext.drop 16)
    else .error (.new "cipher: message authentication failed")
  EncodeToString payload := 61 :: payload
  DecodeString s :=
    match s with
    | 61 :: payload => .ok payload
    | _ => .error (.new "illegal base64 data")

/-- A cache that keeps the list of the `Set` calls it received. -/
def sampleCache : GoCache (List (String × GoAny Nat × Int)) (GoAny Nat) where
  New _ _ := []
  Set k key val d := (key, val, d) :: k
  Get k key := (k.find? (fun e => e.1 == key)).map (fun e => e.2.1)
  Delete k key := k.filter (fun e => e.1 != key)

/-- Numbers below 256 stored as one byte; paths joined with a slash. -/
def samplePackages : Packages (List (String × GoAny Nat × Int)) Nat where
  Join elem := "/".intercalate elem
  Dir path := path ++ "/.."
  MarshalIndent v :=
    if v < 256 then .ok [Fin.ofNat v] else .error (.new "json: unsupported value")
  Unmarshal data :=
    match data with
    | [b] => .ok b.val
    | _ => .error (.new "unexpected end of JSON input")
  zero := 0
  nilInterface := fun _ => false
  crypto := sampleCrypto
  gocache := sampleCache

/-- The options of the sample stores. -/
def sampleOptions (enableBackup : Bool) (encryptionKey : String) : StoreOptions where
  SubDir := ""
  FileName := "data.json"
  EnableBackup := enableBackup
  UseCache := true
  DefaultExpiration := 300
  CleanupInterval := 60
  EncryptionKey := encryptionKey

/-- A store on the map file system under "/base", holding `data`. -/
def sampleStore (enableBackup : Bool) (encryptionKey : String) (data : Nat) :
    Store MemFS (List (String × GoAny Nat × Int)) Nat where
  fs := memFS
  basePath := "/base"
  subDir := ""
  fileName := "data.json"
  data := data
  cache := some { c := [] }
  enableBackup := enableBackup
  encryptionKey := encryptionKey

/-- The map file system with no file and no fault. -/
def emptyFS : MemFS where
  files := fun _ => none
  faults := fun _ => none

/-! ## States of the map file system during the atomic write -/

/-- The files after the backup step moved `old` from `path` to the `.bak` path. -/
def afterBackup (files : String → Option Bytes) (path : String) (old : Bytes) :
    String → Option Bytes :=
  setFile (setFile files path none) (path ++ ".bak") (some old)

/-- The files after `data` was written to the `.tmp` path and moved to `path`. -/
def afterWrite (files : String → Option Bytes) (path : String) (data : Bytes) :
    String → Option Bytes :=
  setFile (setFile (setFile files (path ++ ".tmp") (some data)) (path ++ ".tmp") none) path
    (some data)

/-- The files the backup step leaves behind when it does not fail. -/
def backedUp (files : String → Option Bytes) (path : String) (enableBackup : Bool) :
    String → Option Bytes :=
  match enableBackup, files path with
  | true, some old => afterBackup files path old
  | _, _ => files

/-- The map file system after an atomic write of `data` to `path` went through. -/
def written (w : MemFS) (path : String) (data : Bytes) (enableBackup : Bool) : MemFS :=
  { w with files := afterWrite (backedUp w.files path enableBackup) path data }

/-- A map file system holding the one-byte file "/base/data.json", on which every write to
"/base/data.json.tmp" fails. -/
def fullDiskFS : MemFS where
  files := setFile (fun _ => none) "/base/data.json" (some [1])
  faults := fun call =>
    match call with
    | .WriteFile path _ _ =>
      if path = "/base/data.json.tmp" then some (.new "no space left on device") else none
    | _ => none

/-- The store `s` on another file system: same paths, policies, data and cache. -/
def Store.onFs {σ τ κ T : Type} (s : Store σ κ T) (fs : FileSystem τ) : Store τ κ T where
  fs := fs
  basePath := s.basePath
  subDir := s.subDir
  fileName := s.fileName
  data := s.data
  cache := s.cache
  enableBackup := s.enableBackup
  encryptionKey := s.encryptionKey

/-- A map file system whose "/base/data.json" holds two bytes that are neither a JSON
value of the sample packages nor an encrypted payload. -/
def corruptFS : MemFS where
  files := setFile (fun _ => none) "/base/data.json" (some [1, 2])
  faults := fun _ => none

/-- A map file system without faults holding the one-byte file "/base/data.json". -/
def oneFileFS : MemFS where
  files := setFile (fun _ => none) "/base/data.json" (some [1])
  faults := fun _ => none

/-- The states the file system went through: the first one, then the one after each call. -/
def Traced.states {σ : Type} (first : σ) (t : Traced σ) : List σ :=
  first :: t.log.map Prod.snd

/-- A map file system holding the one-byte file "/base/data.json", on which the rename of
that file to "/base/data.json.bak" fails. -/
def renameFaultFS : MemFS where
  files := setFile (fun _ => none) "/base/data.json" (some [1])
  faults := fun call =>
    match call with
    | .Rename src dst =>
      if src = "/base/data.json" ∧ dst = "/base/data.json.bak" then
        some (.new "permission denied")
      else none
    | _ => none

/-! ## The TTL map behind the cache -/

/-- An entry of the TTL map: the object and the time at which it expires, in nanoseconds;
an entry whose expiration is not positive never expires. -/
structure Item (V : Type) where
  Object : V
  Expiration : Int

/-- The entry has an expiration and the clock is past it. -/
def Item.Expired {V : Type} (item : Item V) (now : Int) : Bool :=
  decide (0 < item.Expiration ∧ item.Expiration < now)

/-- The state of one TTL map: the clock it reads, its default expiration and its entries. -/
structure TTLCache (V : Type) where
  now : Int
  defaultExpiration : Int
  items : String → Option (Item V)

/-- Modelled from the spec: the opaque TTL map behind `Cache[T]` (the package go-cache,
outside the repository), a mapping from a key to a (value, expiry) pair. `Set` with the
default expiration stamps the entry with the clock plus the default of the map when that is
positive; `Get` finds an entry unless it has expired; `Delete` removes it. -/
def ttlCache {V : Type} : GoCache (TTLCache V) V where
  New defaultExpiration _ :=
    { now := 0
      defaultExpiration := if defaultExpiration = 0 then -1 else defaultExpiration
      items := fun _ => none }
  Set k key val d :=
    let d := if d = DefaultExpiration then k.defaultExpiration else d
    let e := if 0 < d then k.now + d else 0
    { k with items := fun q => if q = key then some { Object := val, Expiration := e } else k.items q }
  Get k key :=
    match k.items key with
    | none => none
    | some item => if item.Expired k.now then none else some item.Object
  Delete k key :=
    { k with items := fun q => if q = key then none else k.items q }

/-- Modelled from the spec: the TTL map after `elapsed` nanoseconds; with `sweep` set the
background sweep has run and removed the entries that have expired. -/
def TTLCache.later {V : Type} (k : TTLCache V) (elapsed : Nat) (sweep : Bool) : TTLCache V :=
  { k with
    now := k.now + elapsed
    items := fun q =>
      if sweep then (k.items q).filter (fun item => !item.Expired (k.now + elapsed))
      else k.items q }

/-- The entry for `key`, if there is one, has expired. -/
def TTLCache.expired {V : Type} (k : TTLCache V) (key : String) : Bool :=
  match k.items key with
  | some item => item.Expired k.now
  | none => false

/-- A map file system holding the one-byte file "/base/data.json", on which `Stat` of that
file fails with an error other than "not exists". -/
def statFaultFS : MemFS where
  files := setFile (fun _ => none) "/base/data.json" (some [1])
  faults := fun call =>
    match call with
    | .Stat path => if path = "/base/data.json" then some (.new "permission denied") else none
    | _ => none

/-! ## Theorems -/

/-! ### Helper lemmas -/

theorem ReadFull_length {rnd rnd1 : RandReader} {n : Nat} {b : Bytes}
    (h : ReadFull rnd n = (.ok b, rnd1)) : b.length = n := by
  unfold ReadFull at h
  split at h
  · cases h
    simp; omega
  · split at h <;> cases h

theorem sliceTo_append {a : Bytes} (rest : Bytes) {n : Nat} (h : a.length = n) :
    sliceTo (a ++ rest) n = some a := by
  subst h
  simp [sliceTo]

theorem sliceFrom_append {a : Bytes} (rest : Bytes) {n : Nat} (h : a.length = n) :
    sliceFrom (a ++ rest) n = some rest := by
  subst h
  simp [sliceFrom]

theorem sampleCrypto_base64 : Base64RoundTrip sampleCrypto := by
  intro b; rfl

theorem sampleCrypto_openSeal : OpenSeal sampleCrypto := by
  intro g nonce p _
  have hl : (sampleTag g nonce).length = 16 := by simp [sampleTag]; omega
  have h1 : (sampleTag g nonce ++ p).take 16 = sampleTag g nonce := by
    rw [← hl, List.take_left]
  have h2 : (sampleTag g nonce ++ p).drop 16 = p := by
    rw [← hl, List.drop_left]
  show (if (sampleTag g nonce ++ p).take 16 = sampleTag g nonce then
      Except.ok ((sampleTag g nonce ++ p).drop 16) else _) = Except.ok p
  rw [if_pos h1, h2]

/-- Decrypting what `EncryptData` returned, with the same passphrase, gives the payload. -/
theorem DecryptData_of_EncryptData (c : Crypto) (hb : Base64RoundTrip c) (ho : OpenSeal c)
    (passphrase : String) (p : Bytes) (rnd rnd1 : RandReader) (s : Bytes)
    (h : EncryptData c passphrase p rnd = (.ok s, rnd1)) :
    DecryptData c passphrase s = some (.ok p) := by
  unfold EncryptData at h
  split at h
  · cases h
  · rename_i salt r1 hsalt
    split at h
    · cases h
    · rename_i key hkey
      split at h
      · cases h
      · rename_i block hblock
        split at h
        · cases h
        · rename_i gcm hgcm
          split at h
          · cases h
          · rename_i nonce r2 hnonce
            have hs := ReadFull_length hsalt
            have hn := ReadFull_length hnonce
            simp only [Prod.mk.injEq, Except.ok.injEq] at h
            obtain ⟨h, -⟩ := h
            subst h
            unfold DecryptData
            rw [hb]
            simp only [List.append_assoc]
            have hlen : ¬ (salt ++ (nonce ++ c.Seal gcm nonce p)).length < 16 := by
              simp; omega
            simp only [hlen, if_false, sliceTo_append _ hs, sliceFrom_append _ hs, hkey,
              hblock, hgcm]
            have hlen2 : ¬ (nonce ++ c.Seal gcm nonce p).length < c.NonceSize gcm := by
              simp; omega
            simp only [hlen2, if_false, sliceTo_append _ hn, sliceFrom_append _ hn,
              ho gcm nonce p hn]

theorem tmp_ne_final (p : String) : p ++ ".tmp" ≠ p := by
  intro h
  have := congrArg String.length h
  simp only [String.length_append] at this
  have h4 : ".tmp".length = 4 := by decide
  omega

theorem bak_ne_final (p : String) : p ++ ".bak" ≠ p := by
  intro h
  have := congrArg String.length h
  simp only [String.length_append] at this
  have h4 : ".bak".length = 4 := by decide
  omega

theorem tmp_ne_bak (p : String) : p ++ ".tmp" ≠ p ++ ".bak" := by
  intro h
  have := congrArg String.data h
  simp at this

/-- On the map file system without faults the atomic write returns no error and leaves
the backed-up files with the payload at the final path. -/
theorem atomicWriteFile_memFS_eq (path : String) (data : Bytes) (enableBackup : Bool)
    (w : MemFS) (hw : ∀ call, w.faults call = none) :
    atomicWriteFile memFS path data enableBackup w =
      (none, written w path data enableBackup) := by
  cases enableBackup
  · simp [atomicWriteFile, memFS, hw, setFile, afterWrite, backedUp, written]
  · cases hf : w.files path with
    | none => simp [atomicWriteFile, memFS, hw, setFile, hf, afterWrite, backedUp, written]
    | some old =>
      simp [atomicWriteFile, memFS, hw, setFile, hf, afterWrite, backedUp, afterBackup,
        written]

theorem afterWrite_final (files : String → Option Bytes) (path : String) (data : Bytes) :
    afterWrite files path data path = some data := by
  simp [afterWrite, setFile]

theorem afterWrite_bak (files : String → Option Bytes) (path : String) (data : Bytes) :
    afterWrite files path data (path ++ ".bak") = files (path ++ ".bak") := by
  simp [afterWrite, setFile, bak_ne_final, (tmp_ne_bak path).symm]

theorem backedUp_bak (files : String → Option Bytes) (path : String) (old : Bytes)
    (h : files path = some old) : backedUp files path true (path ++ ".bak") = some old := by
  simp [backedUp, h, afterBackup, setFile]

/-- With the key setup of the packages working and 28 random bytes left, `EncryptData`
returns a text. -/
theorem EncryptData_ok (c : Crypto) (hk : KeySetup c) (passphrase : String) (p : Bytes)
    (rnd : RandReader) (hr : 28 ≤ rnd.length) :
    ∃ s, EncryptData c passphrase p rnd = (.ok s, rnd.drop 28) := by
  obtain ⟨key, block, gcm, h1, h2, h3, h4⟩ := hk passphrase (rnd.take 16)
  have h16 : 16 ≤ rnd.length := by omega
  have h12 : 12 ≤ rnd.length - 16 := by omega
  refine ⟨c.EncodeToString (rnd.take 16 ++ (rnd.drop 16).take 12 ++
    c.Seal gcm ((rnd.drop 16).take 12) p), ?_⟩
  simp [EncryptData, ReadFull, h16, h1, h2, h3, h4, h12]

theorem Save_memFS_plain {κ T : Type} (P : Packages κ T) (s : Store MemFS κ T)
    (hfs : s.fs = memFS) (hkey : s.encryptionKey = "") (b : Bytes)
    (hm : P.MarshalIndent s.data = .ok b) (w : MemFS) (hw : ∀ call, w.faults call = none)
    (rnd : RandReader) :
    s.Save P w rnd =
      (none, written w (s.filePath P) b s.enableBackup, rnd) := by
  have h1 : memFS.MkdirAll (P.Dir (s.filePath P)) 0o755 w = (none, w) := by
    simp [memFS, hw]
  simp [Store.Save, hfs, hkey, hm, h1, atomicWriteFile_memFS_eq _ _ _ _ hw]

theorem Save_memFS_encrypted {κ T : Type} (P : Packages κ T) (s : Store MemFS κ T)
    (hfs : s.fs = memFS) (hkey : s.encryptionKey ≠ "") (b enc : Bytes)
    (hm : P.MarshalIndent s.data = .ok b) (w : MemFS) (hw : ∀ call, w.faults call = none)
    (rnd rnd1 : RandReader)
    (he : EncryptData P.crypto s.encryptionKey b rnd = (.ok enc, rnd1)) :
    s.Save P w rnd =
      (none, written w (s.filePath P) enc s.enableBackup, rnd1) := by
  have h1 : memFS.MkdirAll (P.Dir (s.filePath P)) 0o755 w = (none, w) := by
    simp [memFS, hw]
  simp [Store.Save, hfs, hkey, hm, h1, he, atomicWriteFile_memFS_eq _ _ _ _ hw]

theorem Load_memFS_plain {κ T : Type} (P : Packages κ T) (s : Store MemFS κ T)
    (hfs : s.fs = memFS) (hkey : s.encryptionKey = "") (w : MemFS)
    (hw : ∀ call, w.faults call = none) (bytes : Bytes)
    (hf : w.files (s.filePath P) = some bytes) (v : T) (hu : P.Unmarshal bytes = .ok v) :
    ∃ s1, s.Load P w = some (none, s1, w) ∧ s1.data = v := by
  have h1 : memFS.Stat (s.filePath P) w = (none, w) := by simp [memFS, hw, hf]
  have h2 : memFS.ReadFile (s.filePath P) w = (.ok bytes, w) := by simp [memFS, hw, hf]
  have h3 : memFS.IsNotExist none = false := by simp [memFS]
  cases hc : s.cache <;> simp [Store.Load, hfs, hkey, h1, h2, h3, hu, hc]

theorem Load_memFS_encrypted {κ T : Type} (P : Packages κ T) (s : Store MemFS κ T)
    (hfs : s.fs = memFS) (hkey : s.encryptionKey ≠ "") (w : MemFS)
    (hw : ∀ call, w.faults call = none) (bytes plaintext : Bytes)
    (hf : w.files (s.filePath P) = some bytes)
    (hd : DecryptData P.crypto s.encryptionKey bytes = some (.ok plaintext))
    (v : T) (hu : P.Unmarshal plaintext = .ok v) :
    ∃ s1, s.Load P w = some (none, s1, w) ∧ s1.data = v := by
  have h1 : memFS.Stat (s.filePath P) w = (none, w) := by simp [memFS, hw, hf]
  have h2 : memFS.ReadFile (s.filePath P) w = (.ok bytes, w) := by simp [memFS, hw, hf]
  have h3 : memFS.IsNotExist none = false := by simp [memFS]
  cases hc : s.cache <;> simp [Store.Load, hfs, hkey, h1, h2, h3, hu, hc, hd]

theorem Set_builtWith {σ κ T : Type} (P : Packages κ T) (s : Store σ κ T) (v : T) (w : σ)
    (fs : FileSystem σ) (basePath : String) (opts : StoreOptions)
    (hs : s.BuiltWith fs basePath opts) :
    (s.Set P v w).1.BuiltWith fs basePath opts ∧ (s.Set P v w).1.data = v ∧
      (s.Set P v w).2 = w := by
  cases hc : s.cache <;> simpa [Store.Set, Store.BuiltWith, hc] using hs

theorem NewStore_builtWith {σ κ T : Type} (P : Packages κ T) (fs : FileSystem σ)
    (basePath : String) (opts : StoreOptions) :
    ∃ fresh : Store σ κ T, NewStore P fs basePath opts = .ok fresh ∧
      fresh.BuiltWith fs basePath opts ∧ fresh.data = P.zero := by
  cases hc : opts.UseCache <;> simp [NewStore, Store.BuiltWith, hc]

theorem filePath_of_builtWith {σ κ T : Type} (P : Packages κ T) (s s1 : Store σ κ T)
    (fs : FileSystem σ) (basePath : String) (opts : StoreOptions)
    (hs : s.BuiltWith fs basePath opts) (hs1 : s1.BuiltWith fs basePath opts) :
    s.filePath P = s1.filePath P := by
  obtain ⟨-, h1, h2, h3, -, -⟩ := hs
  obtain ⟨-, g1, g2, g3, -, -⟩ := hs1
  simp [Store.filePath, h1, h2, h3, g1, g2, g3]

theorem written_final (w : MemFS) (path : String) (data : Bytes) (enableBackup : Bool) :
    (written w path data enableBackup).files path = some data ∧
      (written w path data enableBackup).faults = w.faults :=
  ⟨afterWrite_final _ _ _, rfl⟩

/-- C1. Store round trip on the map file system without faults: for a value whose JSON
encoding decodes back to it and any configuration, with the random source holding the
28 bytes of salt and nonce when a key is set, `Set(v); Save()` returns no error and `Load()`
on a fresh store with the same base path and options returns no error and `Get()` is `v`. -/
theorem Store_round_trip {κ T : Type} (P : Packages κ T)
    (hb : Base64RoundTrip P.crypto) (ho : OpenSeal P.crypto) (hk : KeySetup P.crypto)
    (basePath : String) (opts : StoreOptions) (s : Store MemFS κ T)
    (hs : s.BuiltWith memFS basePath opts)
    (v : T) (b : Bytes) (hm : P.MarshalIndent v = .ok b) (hu : P.Unmarshal b = .ok v)
    (w : MemFS) (hw : ∀ call, w.faults call = none)
    (rnd : RandReader) (hr : opts.EncryptionKey ≠ "" → 28 ≤ rnd.length) :
    ((s.Set P v w).1.Save P (s.Set P v w).2 rnd).1 = none ∧
      ∃ fresh loaded w1, NewStore P memFS basePath opts = .ok fresh ∧
        fresh.Load P ((s.Set P v w).1.Save P (s.Set P v w).2 rnd).2.1 =
          some (none, loaded, w1) ∧
        loaded.Get = v := by
  obtain ⟨hsa, hdata, hw2⟩ := Set_builtWith P s v w memFS basePath opts hs
  obtain ⟨fresh, hnew, hfresh, -⟩ := NewStore_builtWith (σ := MemFS) P memFS basePath opts
  have hpath := filePath_of_builtWith P fresh (s.Set P v w).1 memFS basePath opts hfresh hsa
  generalize (s.Set P v w).1 = sa at *
  rw [hw2]
  have hm1 : P.MarshalIndent sa.data = .ok b := by rw [hdata]; exact hm
  by_cases hkey : opts.EncryptionKey = ""
  · have hka : sa.encryptionKey = "" := by rw [hsa.2.2.2.2.2]; exact hkey
    have hkf : fresh.encryptionKey = "" := by rw [hfresh.2.2.2.2.2]; exact hkey
    rw [Save_memFS_plain P sa hsa.1 hka b hm1 w hw rnd]
    refine ⟨rfl, fresh, ?_⟩
    obtain ⟨hfile, hfaults⟩ := written_final w (sa.filePath P) b sa.enableBackup
    obtain ⟨s1, hl, hv⟩ := Load_memFS_plain P fresh hfresh.1 hkf _ (by rw [hfaults]; exact hw)
      b (by rw [hpath]; exact hfile) v hu
    exact ⟨s1, _, hnew, hl, hv⟩
  · have hka : sa.encryptionKey ≠ "" := by rw [hsa.2.2.2.2.2]; exact hkey
    have hkf : fresh.encryptionKey ≠ "" := by rw [hfresh.2.2.2.2.2]; exact hkey
    obtain ⟨enc, he⟩ := EncryptData_ok P.crypto hk sa.encryptionKey b rnd (hr hkey)
    rw [Save_memFS_encrypted P sa hsa.1 hka b enc hm1 w hw rnd _ he]
    refine ⟨rfl, fresh, ?_⟩
    obtain ⟨hfile, hfaults⟩ := written_final w (sa.filePath P) enc sa.enableBackup
    have hd := DecryptData_of_EncryptData P.crypto hb ho sa.encryptionKey b rnd _ enc he
    have hkeq : fresh.encryptionKey = sa.encryptionKey := by
      rw [hfresh.2.2.2.2.2, hsa.2.2.2.2.2]
    obtain ⟨s1, hl, hv⟩ := Load_memFS_encrypted P fresh hfresh.1 hkf _
      (by rw [hfaults]; exact hw) enc b (by rw [hpath]; exact hfile)
      (by rw [hkeq]; exact hd) v hu
    exact ⟨s1, _, hnew, hl, hv⟩

/-- C2. Encryption round trip: whenever `EncryptData(passphrase, p)` returns a string
without error, for any payload (the empty one too) and whatever bytes the random source
delivered, `DecryptData` with the same passphrase returns no error and exactly `p`. -/
theorem Encrypt_Decrypt_round_trip (c : Crypto) (hb : Base64RoundTrip c) (ho : OpenSeal c)
    (passphrase : String) (p : Bytes) (rnd rnd1 : RandReader) (s : Bytes)
    (h : EncryptData c passphrase p rnd = (.ok s, rnd1)) :
    DecryptData c passphrase s = some (.ok p) :=
  DecryptData_of_EncryptData c hb ho passphrase p rnd rnd1 s h

theorem sampleCrypto_keySetup : KeySetup sampleCrypto := by
  intro passphrase salt
  have hl : ((salt ++ List.replicate 32 (Fin.ofNat passphrase.length)).take 32).length = 32 := by
    simp
  have h2 : sampleCrypto.NewCipher
      ((salt ++ List.replicate 32 (Fin.ofNat passphrase.length)).take 32) =
      .ok ((salt ++ List.replicate 32 (Fin.ofNat passphrase.length)).take 32) := by
    show (if _ then _ else _) = _
    rw [if_pos (Or.inr (Or.inr hl))]
  exists (salt ++ List.replicate 32 (Fin.ofNat passphrase.length)).take 32
  exists (salt ++ List.replicate 32 (Fin.ofNat passphrase.length)).take 32
  exists (salt ++ List.replicate 32 (Fin.ofNat passphrase.length)).take 32

theorem sampleStore_builtWith (enableBackup : Bool) (encryptionKey : String) (data : Nat) :
    (sampleStore enableBackup encryptionKey data).BuiltWith memFS "/base"
      (sampleOptions enableBackup encryptionKey) :=
  ⟨rfl, rfl, rfl, rfl, rfl, rfl⟩

/-- Witness of C1: the number 42 through an encrypted store with backups on. -/
theorem Store_round_trip_witness :
    samplePackages.MarshalIndent 42 = .ok [42] ∧ samplePackages.Unmarshal [42] = .ok 42 ∧
    ((((sampleStore true "pw" 0).Set samplePackages 42 emptyFS).1.Save samplePackages
        ((sampleStore true "pw" 0).Set samplePackages 42 emptyFS).2
        (List.replicate 28 7)).1 = none ∧
      ∃ fresh loaded w1,
        NewStore samplePackages memFS "/base" (sampleOptions true "pw") = .ok fresh ∧
        fresh.Load samplePackages
          (((sampleStore true "pw" 0).Set samplePackages 42 emptyFS).1.Save samplePackages
            ((sampleStore true "pw" 0).Set samplePackages 42 emptyFS).2
            (List.replicate 28 7)).2.1 = some (none, loaded, w1) ∧
        loaded.Get = 42) :=
  ⟨by decide, by decide,
    Store_round_trip samplePackages sampleCrypto_base64 sampleCrypto_openSeal
      sampleCrypto_keySetup "/base" (sampleOptions true "pw") (sampleStore true "pw" 0)
      (sampleStore_builtWith true "pw" 0) 42 [42] (by decide) (by decide) emptyFS
      (fun _ => rfl) (List.replicate 28 7) (fun _ => by decide)⟩

/-- Witness of C2: a three-byte payload, salt and nonce read from 28 given bytes. -/
theorem Encrypt_Decrypt_round_trip_witness :
    EncryptData sampleCrypto "testpass" [1, 2, 3] (List.replicate 28 7) =
        (.ok (61 :: (List.replicate 28 7 ++ List.replicate 16 7 ++ [1, 2, 3])), []) ∧
      DecryptData sampleCrypto "testpass"
        (61 :: (List.replicate 28 7 ++ List.replicate 16 7 ++ [1, 2, 3])) = some (.ok [1, 2, 3]) :=
  ⟨by decide,
    Encrypt_Decrypt_round_trip sampleCrypto sampleCrypto_base64 sampleCrypto_openSeal
      "testpass" [1, 2, 3] (List.replicate 28 7) [] _ (by decide)⟩

/-- When the write of the `.tmp` file fails on the map file system, the atomic write returns
an error and the files are untouched or, with a backup made, the old file sits at `.bak`. -/
theorem atomicWriteFile_memFS_write_fails (path : String) (data : Bytes) (enableBackup : Bool)
    (w : MemFS) (hfail : w.faults (.WriteFile (path ++ ".tmp") data 0o600) ≠ none) :
    ∃ e w1, atomicWriteFile memFS path data enableBackup w = (some e, w1) ∧
      (enableBackup = false ∨ w.files path = none → w1.files = w.files) ∧
      (∀ old, w.files path = some old →
        w1.files = w.files ∨ w1.files = afterBackup w.files path old) := by
  obtain ⟨e, he⟩ := Option.ne_none_iff_exists'.mp hfail
  cases enableBackup
  · exact ⟨.wrap "failed to write .tmp file" e, w, by simp [atomicWriteFile, memFS, he],
      fun _ => rfl, fun _ _ => Or.inl rfl⟩
  · cases hst : w.faults (.Stat path) with
    | some e1 =>
      exact ⟨.wrap "failed to write .tmp file" e, w,
        by simp [atomicWriteFile, memFS, he, hst], fun _ => rfl, fun _ _ => Or.inl rfl⟩
    | none =>
      cases hf : w.files path with
      | none =>
        exact ⟨.wrap "failed to write .tmp file" e, w,
          by simp [atomicWriteFile, memFS, he, hst, hf], fun _ => rfl, fun _ _ => Or.inl rfl⟩
      | some old =>
        cases hrn : w.faults (.Rename path (path ++ ".bak")) with
        | some e2 =>
          exact ⟨.wrap "failed to rename old file to .bak" e2, w,
            by simp [atomicWriteFile, memFS, hst, hf, hrn], by simp, fun _ _ => Or.inl rfl⟩
        | none =>
          refine ⟨.wrap "failed to write .tmp file" e,
            { w with files := afterBackup w.files path old }, ?_, by simp, ?_⟩
          · simp [atomicWriteFile, memFS, he, hst, hf, hrn, afterBackup]
          · intro old1 h1
            cases h1
            exact Or.inr rfl

/-- What `Save` does when every write of the `.tmp` file fails on the map file system: it
returns an error; with backups off, or with no file at the final path, the final path keeps
the content it had; with backups on and a file there, the final path either keeps its
content or the file has been renamed to `.bak`, and the latter is what the atomic write does
when `Stat` and `Rename` succeed. -/
theorem Save_temp_write_fails {κ T : Type} (P : Packages κ T) (s : Store MemFS κ T)
    (hfs : s.fs = memFS) (w : MemFS) (rnd : RandReader)
    (hfail : ∀ data, w.faults (.WriteFile (s.filePath P ++ ".tmp") data 0o600) ≠ none) :
    (s.Save P w rnd).1 ≠ none ∧
    (s.enableBackup = false ∨ w.files (s.filePath P) = none →
      (s.Save P w rnd).2.1.files (s.filePath P) = w.files (s.filePath P)) ∧
    (∀ old, w.files (s.filePath P) = some old →
      (s.Save P w rnd).2.1.files (s.filePath P) = some old ∨
        (s.enableBackup = true ∧ (s.Save P w rnd).2.1.files (s.filePath P) = none ∧
          (s.Save P w rnd).2.1.files (s.filePath P ++ ".bak") = some old)) ∧
    (∀ data old, w.files (s.filePath P) = some old →
      w.faults (.Stat (s.filePath P)) = none →
      w.faults (.Rename (s.filePath P) (s.filePath P ++ ".bak")) = none →
      (atomicWriteFile memFS (s.filePath P) data true w).1 ≠ none ∧
        (atomicWriteFile memFS (s.filePath P) data true w).2.files (s.filePath P) = none ∧
        (atomicWriteFile memFS (s.filePath P) data true w).2.files (s.filePath P ++ ".bak") =
          some old) := by
  have key : ∀ data, ∃ e w1,
      atomicWriteFile memFS (s.filePath P) data s.enableBackup w = (some e, w1) ∧
      (s.enableBackup = false ∨ w.files (s.filePath P) = none →
        w1.files (s.filePath P) = w.files (s.filePath P)) ∧
      (∀ old, w.files (s.filePath P) = some old →
        w1.files (s.filePath P) = some old ∨
          (s.enableBackup = true ∧ w1.files (s.filePath P) = none ∧
            w1.files (s.filePath P ++ ".bak") = some old)) := by
    intro data
    obtain ⟨e, w1, h1, h2, h3⟩ :=
      atomicWriteFile_memFS_write_fails (s.filePath P) data s.enableBackup w (hfail data)
    refine ⟨e, w1, h1, fun h => by rw [h2 h], fun old hold => ?_⟩
    rcases h3 old hold with h | h
    · left; rw [h]; exact hold
    · right
      refine ⟨?_, by simp [h, afterBackup, setFile, (bak_ne_final _).symm],
        by simp [h, afterBackup, setFile]⟩
      by_contra hb
      have hb1 : s.enableBackup = false := by simpa using hb
      have := h2 (Or.inl hb1)
      rw [h] at this
      have h4 := congrFun this (s.filePath P)
      simp [afterBackup, setFile, (bak_ne_final _).symm, hold] at h4
  have main : (s.Save P w rnd).1 ≠ none ∧
      ((s.enableBackup = false ∨ w.files (s.filePath P) = none →
        (s.Save P w rnd).2.1.files (s.filePath P) = w.files (s.filePath P)) ∧
      (∀ old, w.files (s.filePath P) = some old →
        (s.Save P w rnd).2.1.files (s.filePath P) = some old ∨
          (s.enableBackup = true ∧ (s.Save P w rnd).2.1.files (s.filePath P) = none ∧
            (s.Save P w rnd).2.1.files (s.filePath P ++ ".bak") = some old))) := by
    unfold Store.Save
    rw [hfs]
    have hmk : memFS.MkdirAll (P.Dir (s.filePath P)) 0o755 w = (none, w) ∨
        ∃ e, memFS.MkdirAll (P.Dir (s.filePath P)) 0o755 w = (some e, w) := by
      cases h : w.faults (.MkdirAll (P.Dir (s.filePath P)) 0o755) <;> simp [memFS, h]
    rcases hmk with hmk | ⟨e, hmk⟩
    · simp only [hmk]
      cases hm : P.MarshalIndent s.data with
      | error e => exact ⟨by simp, fun _ => rfl, fun old h => Or.inl h⟩
      | ok bytes =>
        by_cases hk : s.encryptionKey = ""
        · obtain ⟨e, w1, h1, h2, h3⟩ := key bytes
          simp only [hk, ne_eq, not_true_eq_false, if_false, h1]
          exact ⟨by simp, h2, h3⟩
        · simp only [ne_eq, hk, not_false_eq_true, if_true]
          rcases he : EncryptData P.crypto s.encryptionKey bytes rnd with ⟨r, rnd1⟩
          cases r with
          | error e => exact ⟨by simp, fun _ => rfl, fun old h => Or.inl h⟩
          | ok enc =>
            obtain ⟨e, w1, h1, h2, h3⟩ := key enc
            simp only [h1]
            exact ⟨by simp, h2, h3⟩
    · simp only [hmk]
      refine ⟨by simp, ?_, fun old h => Or.inl h⟩
      intros
      first | rfl | trivial
  refine ⟨main.1, main.2.1, main.2.2, ?_⟩
  intro data old hold hst hrn
  obtain ⟨e, he⟩ := Option.ne_none_iff_exists'.mp (hfail data)
  simp [atomicWriteFile, memFS, hst, hold, hrn, he, setFile, (bak_ne_final _).symm]

/-- C3. Atomicity of Save when the temp write fails, at the input where the code breaks it:
backups on, a file at the final path, `Stat` and `Rename` succeeding, the write of the `.tmp`
file failing. `Save` returns an error, but the final path no longer has the content it had
before the call: it has no file at all, the rename to `.bak` made before the write is not
undone. The doc comment of `atomicWriteFile` puts the write of `.tmp` before the backup. -/
theorem Save_temp_write_fails_counterexample :
    fullDiskFS.files "/base/data.json" = some [1] ∧
    (memFS.Stat "/base/data.json" fullDiskFS).1 = none ∧
    (memFS.Rename "/base/data.json" "/base/data.json.bak" fullDiskFS).1 = none ∧
    (memFS.WriteFile "/base/data.json.tmp" [7] 0o600 fullDiskFS).1 ≠ none ∧
    ((sampleStore true "" 7).Save samplePackages fullDiskFS []).1 ≠ none ∧
    ((sampleStore true "" 7).Save samplePackages fullDiskFS []).2.1.files "/base/data.json" ≠
      fullDiskFS.files "/base/data.json" ∧
    ((sampleStore true "" 7).Save samplePackages fullDiskFS []).2.1.files "/base/data.json" =
      none := by
  decide

/-- The same input through `Save_temp_write_fails`: an error, and the bytes at `.bak`. -/
theorem Save_temp_write_fails_witness :
    ((sampleStore true "" 7).Save samplePackages fullDiskFS []).1 ≠ none ∧
    ((sampleStore true "" 7).Save samplePackages fullDiskFS []).2.1.files
      ((sampleStore true "" 7).filePath samplePackages ++ ".bak") = some [1] := by
  have hp : (sampleStore true "" 7).filePath samplePackages ++ ".tmp" =
      "/base/data.json.tmp" := by decide
  have h := Save_temp_write_fails samplePackages (sampleStore true "" 7) rfl fullDiskFS []
    (fun data => by rw [hp]; simp [fullDiskFS])
  refine ⟨h.1, ?_⟩
  rcases h.2.2.1 [1] (by decide) with h1 | ⟨-, -, h3⟩
  · exact absurd h1 (by decide)
  · exact h3

theorem Set_fields {σ κ T : Type} (P : Packages κ T) (s : Store σ κ T) (v : T) (w : σ) :
    (s.Set P v w).1.data = v ∧ (s.Set P v w).2 = w ∧ (s.Set P v w).1.fs = s.fs ∧
      (s.Set P v w).1.enableBackup = s.enableBackup ∧
      (s.Set P v w).1.encryptionKey = s.encryptionKey ∧
      (s.Set P v w).1.filePath P = s.filePath P := by
  cases hc : s.cache <;> simp [Store.Set, Store.filePath, hc]

/-- C4. Backup semantics on the map file system without faults: with backups on and no
encryption, after `Set(v1); Save(); Set(v2); Save()` both saves returned no error, the bytes
at the `.bak` path deserialize to `v1` and the bytes at the final path to `v2`, whatever
the files were before. -/
theorem Save_twice_backup {κ T : Type} (P : Packages κ T) (s : Store MemFS κ T)
    (hfs : s.fs = memFS) (hbak : s.enableBackup = true) (hkey : s.encryptionKey = "")
    (v1 v2 : T) (b1 b2 : Bytes)
    (hm1 : P.MarshalIndent v1 = .ok b1) (hu1 : P.Unmarshal b1 = .ok v1)
    (hm2 : P.MarshalIndent v2 = .ok b2) (hu2 : P.Unmarshal b2 = .ok v2)
    (w : MemFS) (hw : ∀ call, w.faults call = none) (rnd : RandReader) :
    let s1 := (s.Set P v1 w).1
    let r1 := s1.Save P (s.Set P v1 w).2 rnd
    let s2 := (s1.Set P v2 r1.2.1).1
    let r2 := s2.Save P (s1.Set P v2 r1.2.1).2 r1.2.2
    r1.1 = none ∧ r2.1 = none ∧
      ∃ bak cur, r2.2.1.files (s.filePath P ++ ".bak") = some bak ∧ P.Unmarshal bak = .ok v1 ∧
        r2.2.1.files (s.filePath P) = some cur ∧ P.Unmarshal cur = .ok v2 := by
  intro s1 r1 s2 r2
  obtain ⟨hd1, hw1, hf1, hb1, hk1, hp1⟩ := Set_fields P s v1 w
  have hr1 : r1 = (none, written w (s.filePath P) b1 true, rnd) := by
    show s1.Save P (s.Set P v1 w).2 rnd = _
    rw [hw1, Save_memFS_plain P s1 (hf1.trans hfs) (hk1.trans hkey) b1 (by rw [hd1]; exact hm1)
      w hw rnd, hp1, hb1, hbak]
  obtain ⟨hd2, hw2, hf2, hb2, hk2, hp2⟩ := Set_fields P s1 v2 r1.2.1
  have hr2 : r2 = (none, written (written w (s.filePath P) b1 true) (s.filePath P) b2 true,
      rnd) := by
    show s2.Save P (s1.Set P v2 r1.2.1).2 r1.2.2 = _
    rw [hw2, Save_memFS_plain P s2 (hf2.trans (hf1.trans hfs)) (hk2.trans (hk1.trans hkey)) b2
      (by rw [hd2]; exact hm2) r1.2.1 (by rw [hr1]; exact hw) r1.2.2, hp2, hp1, hb2, hb1, hbak,
      hr1]
  rw [hr1, hr2]
  refine ⟨rfl, rfl, b1, b2, ?_, hu1, ?_, hu2⟩
  · show afterWrite (backedUp (written w (s.filePath P) b1 true).files (s.filePath P) true)
      (s.filePath P) b2 (s.filePath P ++ ".bak") = some b1
    rw [afterWrite_bak, backedUp_bak _ _ b1 (written_final w _ b1 true).1]
  · exact (written_final _ _ b2 true).1

/-- Witness of C4: 1 then 2 saved over an existing file holding 7. -/
theorem Save_twice_backup_witness :
    let s := sampleStore true "" 0
    let w : MemFS := { emptyFS with files := setFile emptyFS.files "/base/data.json" (some [7]) }
    let s1 := (s.Set samplePackages 1 w).1
    let r1 := s1.Save samplePackages (s.Set samplePackages 1 w).2 []
    let s2 := (s1.Set samplePackages 2 r1.2.1).1
    let r2 := s2.Save samplePackages (s1.Set samplePackages 2 r1.2.1).2 r1.2.2
    r1.1 = none ∧ r2.1 = none ∧
      ∃ bak cur, r2.2.1.files (s.filePath samplePackages ++ ".bak") = some bak ∧
        samplePackages.Unmarshal bak = .ok 1 ∧
        r2.2.1.files (s.filePath samplePackages) = some cur ∧
        samplePackages.Unmarshal cur = .ok 2 :=
  Save_twice_backup samplePackages (sampleStore true "" 0) rfl rfl rfl 1 2 [1] [2]
    (by decide) (by decide) (by decide) (by decide)
    { emptyFS with files := setFile emptyFS.files "/base/data.json" (some [7]) }
    (fun _ => rfl) []

/-- The slice expressions of `DecryptData` are guarded: it never panics. -/
theorem DecryptData_ne_none (c : Crypto) (passphrase : String) (s : Bytes) :
    DecryptData c passphrase s ≠ none := by
  unfold DecryptData
  split
  · simp
  · rename_i payload _
    split
    · simp
    · rename_i h16
      have h16 : 16 ≤ payload.length := by omega
      simp only [sliceTo, sliceFrom, h16, if_true]
      split
      · simp
      · split
        · simp
        · split
          · simp
          · rename_i gcm _
            split
            · simp
            · rename_i hn
              have hn : c.NonceSize gcm ≤ (payload.drop 16).length := by omega
              simp only [hn, if_true]
              split <;> simp

theorem onFs_filePath {σ τ κ T : Type} (P : Packages κ T) (s : Store σ κ T)
    (fs : FileSystem τ) : (s.onFs fs).filePath P = s.filePath P := rfl

/-- C5. Missing-file tolerance: when `Stat` of the store's path gives an error for which
`IsNotExist` is true, `Load` returns no error and leaves the store as it was, so `Get()` is
what it was before, the zero value on a store just built; on the recorded file system the
only call made is that `Stat`, so `ReadFile` is never called. -/
theorem Load_missing_file {σ κ T : Type} (P : Packages κ T) (s : Store σ κ T) (w : σ)
    (h : s.fs.IsNotExist (s.fs.Stat (s.filePath P) w).1 = true) :
    s.Load P w = some (none, s, (s.fs.Stat (s.filePath P) w).2) ∧
    (∀ basePath opts, NewStore P s.fs basePath opts = .ok s → s.Get = P.zero) ∧
    (∀ log, (s.onFs (traced s.fs)).Load P ⟨w, log⟩ =
      some (none, s.onFs (traced s.fs),
        ⟨(s.fs.Stat (s.filePath P) w).2,
          log ++ [(.Stat (s.filePath P), (s.fs.Stat (s.filePath P) w).2)]⟩)) := by
  refine ⟨?_, ?_, ?_⟩
  · simp [Store.Load, h]
  · intro basePath opts hnew
    obtain ⟨fresh, h1, -, h3⟩ := NewStore_builtWith (σ := σ) P s.fs basePath opts
    rw [h1] at hnew
    cases hnew
    exact h3
  · intro log
    have hfs : (s.onFs (traced s.fs)).fs = traced s.fs := rfl
    have hst : (traced s.fs).Stat (s.filePath P) ⟨w, log⟩ =
        ((s.fs.Stat (s.filePath P) w).1, ⟨(s.fs.Stat (s.filePath P) w).2,
          log ++ [(.Stat (s.filePath P), (s.fs.Stat (s.filePath P) w).2)]⟩) := rfl
    have hne : (traced s.fs).IsNotExist = s.fs.IsNotExist := rfl
    simp only [Store.Load, onFs_filePath, hfs, hst, hne, h, if_true]

/-- Witness of C5: a store just built over the empty map file system. -/
theorem Load_missing_file_witness :
    (sampleStore false "" 0).Load samplePackages emptyFS =
        some (none, sampleStore false "" 0, emptyFS) ∧
      ((sampleStore false "" 0).onFs (traced memFS)).Load samplePackages ⟨emptyFS, []⟩ =
        some (none, (sampleStore false "" 0).onFs (traced memFS),
          ⟨emptyFS, [(.Stat "/base/data.json", emptyFS)]⟩) :=
  ⟨(Load_missing_file samplePackages (sampleStore false "" 0) emptyFS (by decide)).1,
    (Load_missing_file samplePackages (sampleStore false "" 0) emptyFS (by decide)).2.2 []⟩

/-- An error returned by `Load` comes with the store it was called on. -/
theorem Load_error_keeps_store {σ κ T : Type} (P : Packages κ T) (s : Store σ κ T) (w : σ)
    (e : GoError) (s1 : Store σ κ T) (w1 : σ) (h : s.Load P w = some (some e, s1, w1)) :
    s1 = s := by
  unfold Store.Load at h
  simp only at h
  split at h
  · simp at h
  · split at h
    · simp only [Option.some.injEq, Prod.mk.injEq] at h
      exact h.2.1.symm
    · split at h
      · simp only [Option.some.injEq, Prod.mk.injEq] at h
        exact h.2.1.symm
      · split at h
        · simp at h
        · simp only [Option.some.injEq, Prod.mk.injEq] at h
          exact h.2.1.symm
        · simp at h

theorem Load_ne_none {σ κ T : Type} (P : Packages κ T) (s : Store σ κ T) (w : σ) :
    s.Load P w ≠ none := by
  unfold Store.Load
  simp only
  split
  · simp
  · split
    · simp
    · split
      · simp
      · rename_i bytes w2 _
        split
        · rename_i hd
          exfalso
          split at hd
          · split at hd <;> simp at hd
          · have := DecryptData_ne_none P.crypto s.encryptionKey bytes
            split at hd
            · contradiction
            · simp at hd
            · split at hd <;> simp at hd
        · simp
        · simp

/-- C6. Load is atomic on failure: `Load` never panics; whenever it returns an error the
store it leaves is the one it was called on, so `Get()` and the cache are as before; and it
does return an error when `Stat` fails with an error that is not "not exists", when
`ReadFile` fails, when decryption fails with a key set, and when the JSON does not
deserialize (with or without a key). -/
theorem Load_failure_atomic {σ κ T : Type} (P : Packages κ T) (s : Store σ κ T) (w : σ) :
    s.Load P w ≠ none ∧
    (∀ e s1 w1, s.Load P w = some (some e, s1, w1) →
      s1 = s ∧ s1.Get = s.Get ∧ s1.cache = s.cache) ∧
    (∀ e w1, s.fs.Stat (s.filePath P) w = (some e, w1) → s.fs.IsNotExist (some e) = false →
      s.Load P w = some (some (.wrap "failed to stat file" e), s, w1)) ∧
    (∀ w1, s.fs.Stat (s.filePath P) w = (none, w1) → s.fs.IsNotExist none = false →
      (∀ e w2, s.fs.ReadFile (s.filePath P) w1 = (.error e, w2) →
        s.Load P w = some (some (.wrap "failed to read file" e), s, w2)) ∧
      (∀ bytes w2, s.fs.ReadFile (s.filePath P) w1 = (.ok bytes, w2) →
        (∀ e, s.encryptionKey = "" → P.Unmarshal bytes = .error e →
          s.Load P w = some (some (.wrap "failed to unmarshal JSON" e), s, w2)) ∧
        (∀ e, s.encryptionKey ≠ "" →
          DecryptData P.crypto s.encryptionKey bytes = some (.error e) →
          s.Load P w = some (some (.wrap "failed to decrypt data" e), s, w2)) ∧
        (∀ plaintext e, s.encryptionKey ≠ "" →
          DecryptData P.crypto s.encryptionKey bytes = some (.ok plaintext) →
          P.Unmarshal plaintext = .error e →
          s.Load P w = some (some (.wrap "failed to unmarshal decrypted JSON" e), s, w2)))) := by
  refine ⟨Load_ne_none P s w, ?_, ?_, ?_⟩
  · intro e s1 w1 h
    have := Load_error_keeps_store P s w e s1 w1 h
    subst this
    exact ⟨rfl, rfl, rfl⟩
  · intro e w1 hst hne
    simp [Store.Load, hst, hne]
  · intro w1 hst hne
    refine ⟨?_, ?_⟩
    · intro e w2 hrd
      simp [Store.Load, hst, hne, hrd]
    · intro bytes w2 hrd
      refine ⟨?_, ?_, ?_⟩
      · intro e hk hu
        simp [Store.Load, hst, hne, hrd, hk, hu]
      · intro e hk hd
        simp [Store.Load, hst, hne, hrd, hk, hd]
      · intro plaintext e hk hd hu
        simp [Store.Load, hst, hne, hrd, hk, hd, hu]

/-- Witness of C6: a plain store holding 5 over a file that does not deserialize, and an
encrypted store over the same file, which is too short to decrypt. -/
theorem Load_failure_atomic_witness :
    (sampleStore false "" 5).Load samplePackages corruptFS =
      some (some (.wrap "failed to unmarshal JSON" (.new "unexpected end of JSON input")),
        sampleStore false "" 5, corruptFS) ∧
    (sampleStore false "pw" 5).Load samplePackages corruptFS =
      some (some (.wrap "failed to decrypt data"
        (.wrap "failed to base64-decode ciphertext" (.new "illegal base64 data"))),
        sampleStore false "pw" 5, corruptFS) :=
  ⟨((Load_failure_atomic samplePackages (sampleStore false "" 5) corruptFS).2.2.2 corruptFS
      rfl rfl).2 [1, 2] corruptFS rfl |>.1 _ rfl rfl,
    ((Load_failure_atomic samplePackages (sampleStore false "pw" 5) corruptFS).2.2.2 corruptFS
      rfl rfl).2 [1, 2] corruptFS rfl |>.2.1 _ (by decide) rfl⟩

/-- The contracts of the packages leave open what decrypting under another passphrase
gives: in the sample packages the key depends on the length of the passphrase only, so a
passphrase of the same length opens the text. -/
theorem DecryptData_sample_other_passphrase :
    (EncryptData sampleCrypto "ab" [9] (List.replicate 28 7)).1 =
        .ok (61 :: (List.replicate 28 7 ++ List.replicate 16 7 ++ [9])) ∧
      DecryptData sampleCrypto "cd" (61 :: (List.replicate 28 7 ++ List.replicate 16 7 ++ [9])) =
        some (.ok [9]) := by
  decide

/-- What `DecryptData` adds to a failing `Open`: once the payload is long enough and the
key is set up, the error of `Open` comes back wrapped, with no plaintext. -/
theorem DecryptData_open_error (c : Crypto) (passphrase : String) (s payload key : Bytes)
    (block : c.Block) (gcm : c.AEAD) (e : GoError)
    (hdec : c.DecodeString s = .ok payload) (h16 : 16 ≤ payload.length)
    (hkey : c.Key passphrase (payload.take 16) 32768 8 1 32 = .ok key)
    (hblock : c.NewCipher key = .ok block) (hgcm : c.NewGCM block = .ok gcm)
    (hn : c.NonceSize gcm ≤ (payload.drop 16).length)
    (hopen : c.Open gcm ((payload.drop 16).take (c.NonceSize gcm))
      ((payload.drop 16).drop (c.NonceSize gcm)) = .error e) :
    DecryptData c passphrase s = some (.error (.wrap "failed to decrypt data" e)) := by
  have h1 : ¬ payload.length < 16 := by omega
  have h2 : ¬ (payload.drop 16).length < c.NonceSize gcm := by omega
  simp only [DecryptData, hdec, h1, if_false, sliceTo, sliceFrom, h16, if_true, hkey, hblock,
    hgcm, h2, hn, hopen]

/-- C8. Truncated payload rejection: a text that base64-decodes to fewer than 28 bytes is
rejected whatever `Open` would do, so the cipher is never opened: below 16 bytes with
"payload too short to contain salt", from 16 to 27 bytes (the key setup working, the nonce
having 12 bytes) with "ciphertext missing nonce"; and no slice expression of `DecryptData`
is out of range on any input. -/
theorem DecryptData_truncated (c : Crypto) (passphrase : String) (s payload : Bytes)
    (hdec : c.DecodeString s = .ok payload) (hlen : payload.length < 28) :
    (payload.length < 16 → ∀ f, DecryptData { c with Open := f } passphrase s =
      some (.error (.new "payload too short to contain salt"))) ∧
    (16 ≤ payload.length → KeySetup c → ∀ f, DecryptData { c with Open := f } passphrase s =
      some (.error (.new "ciphertext missing nonce"))) ∧
    (∀ (c1 : Crypto) (passphrase1 : String) (s1 : Bytes),
      DecryptData c1 passphrase1 s1 ≠ none) := by
  refine ⟨?_, ?_, DecryptData_ne_none⟩
  · intro h16 f
    simp [DecryptData, hdec, h16]
  · intro h16 hk f
    obtain ⟨key, block, gcm, h1, h2, h3, h4⟩ := hk passphrase (payload.take 16)
    have hn : ¬ payload.length < 16 := by omega
    have hr : payload.length - 16 < 12 := by omega
    simp [DecryptData, hdec, hn, sliceTo, sliceFrom, h16, h1, h2, h3, h4, hr]

/-- Witness of C8: payloads of 3 and of 20 bytes. -/
theorem DecryptData_truncated_witness :
    DecryptData sampleCrypto "pw" [61, 1, 2, 3] =
        some (.error (.new "payload too short to contain salt")) ∧
      DecryptData sampleCrypto "pw" (61 :: List.replicate 20 0) =
        some (.error (.new "ciphertext missing nonce")) :=
  ⟨(DecryptData_truncated sampleCrypto "pw" [61, 1, 2, 3] [1, 2, 3] rfl (by decide)).1
      (by decide) sampleCrypto.Open,
    (DecryptData_truncated sampleCrypto "pw" (61 :: List.replicate 20 0) (List.replicate 20 0)
      rfl (by decide)).2.1 (by decide) sampleCrypto_keySetup sampleCrypto.Open⟩

/-- Recording the calls does not change what the atomic write returns or leaves behind. -/
theorem atomicWriteFile_traced {σ : Type} (fs : FileSystem σ) (path : String) (data : Bytes)
    (enableBackup : Bool) (w : σ) (log : List (FsCall × σ)) :
    (atomicWriteFile (traced fs) path data enableBackup ⟨w, log⟩).1 =
        (atomicWriteFile fs path data enableBackup w).1 ∧
      (atomicWriteFile (traced fs) path data enableBackup ⟨w, log⟩).2.cur =
        (atomicWriteFile fs path data enableBackup w).2 := by
  cases enableBackup
  · rcases h3 : fs.WriteFile (path ++ ".tmp") data 0o600 w with ⟨e3, w3⟩
    cases e3
    · rcases h4 : fs.Rename (path ++ ".tmp") path w3 with ⟨e4, w4⟩
      cases e4 <;> simp [atomicWriteFile, traced, h3, h4]
    · simp [atomicWriteFile, traced, h3]
  · rcases h1 : fs.Stat path w with ⟨e1, w1⟩
    cases e1
    · rcases h2 : fs.Rename path (path ++ ".bak") w1 with ⟨e2, w2⟩
      cases e2
      · rcases h3 : fs.WriteFile (path ++ ".tmp") data 0o600 w2 with ⟨e3, w3⟩
        cases e3
        · rcases h4 : fs.Rename (path ++ ".tmp") path w3 with ⟨e4, w4⟩
          cases e4 <;> simp [atomicWriteFile, traced, h1, h2, h3, h4]
        · simp [atomicWriteFile, traced, h1, h2, h3]
      · simp [atomicWriteFile, traced, h1, h2]
    · rcases h3 : fs.WriteFile (path ++ ".tmp") data 0o600 w1 with ⟨e3, w3⟩
      cases e3
      · rcases h4 : fs.Rename (path ++ ".tmp") path w3 with ⟨e4, w4⟩
        cases e4 <;> simp [atomicWriteFile, traced, h1, h3, h4]
      · simp [atomicWriteFile, traced, h1, h3]

theorem atomicWriteFile_states_aux (path : String) (data : Bytes) (enableBackup : Bool)
    (w : MemFS) (old : Bytes) (hold : w.files path = some old) :
    ∀ st ∈ Traced.states w (atomicWriteFile (traced memFS) path data enableBackup ⟨w, []⟩).2,
      st.files path = some old ∨ st.files path = some data ∨
        (enableBackup = true ∧ st.files path = none ∧
          st.files (path ++ ".bak") = some old) := by
  cases enableBackup <;>
  cases h1 : w.faults (.Stat path) <;>
  cases h2 : w.faults (.Rename path (path ++ ".bak")) <;>
  cases h3 : w.faults (.WriteFile (path ++ ".tmp") data 0o600) <;>
  cases h4 : w.faults (.Rename (path ++ ".tmp") path) <;>
  simp [Traced.states, atomicWriteFile, traced, memFS, h1, h2, h3, h4, hold, setFile,
    tmp_ne_final, bak_ne_final, tmp_ne_bak, (tmp_ne_final path).symm,
    (bak_ne_final path).symm, (tmp_ne_bak path).symm]

/-- C9 as amended. On the map file system, starting with the previous content at the final
path, in every state the atomic write goes through (whichever calls fail) the final path
holds the previous content or the new payload, except that with backups on, from the rename
to `.bak` until the rename of `.tmp`, the final path is absent and `.bak` holds the previous
content; with backups off the final file is always there. Without faults the calls are the
optional `Stat` and `Rename` to `.bak`, the `WriteFile` of `.tmp` and the `Rename` to the
final path, and the payload ends at the final path. -/
theorem atomicWriteFile_states (path : String) (data : Bytes) (enableBackup : Bool)
    (w : MemFS) (old : Bytes) (hold : w.files path = some old) :
    (∀ st ∈ Traced.states w (atomicWriteFile (traced memFS) path data enableBackup ⟨w, []⟩).2,
      st.files path = some old ∨ st.files path = some data ∨
        (enableBackup = true ∧ st.files path = none ∧
          st.files (path ++ ".bak") = some old)) ∧
    ((∀ call, w.faults call = none) →
      (atomicWriteFile (traced memFS) path data enableBackup ⟨w, []⟩).1 = none ∧
      (atomicWriteFile (traced memFS) path data enableBackup ⟨w, []⟩).2.log.map Prod.fst =
        (if enableBackup then [.Stat path, .Rename path (path ++ ".bak")] else []) ++
          [.WriteFile (path ++ ".tmp") data 0o600, .Rename (path ++ ".tmp") path] ∧
      (atomicWriteFile (traced memFS) path data enableBackup ⟨w, []⟩).2.cur.files path =
        some data) := by
  refine ⟨atomicWriteFile_states_aux path data enableBackup w old hold, ?_⟩
  intro hw
  cases enableBackup <;>
  simp [atomicWriteFile, traced, memFS, hw, hold, setFile]

/-- C9, counterexample. With backups on and a file at the final path, after the rename to
`.bak` and after the write of `.tmp` the final path has no file: neither the previous
content nor the new payload. -/
theorem atomicWriteFile_states_counterexample :
    oneFileFS.files "/base/data.json" = some [1] ∧
    (atomicWriteFile (traced memFS) "/base/data.json" [7] true ⟨oneFileFS, []⟩).2.log.map
        (fun e => (e.1, e.2.files "/base/data.json")) =
      [(.Stat "/base/data.json", some [1]),
        (.Rename "/base/data.json" "/base/data.json.bak", none),
        (.WriteFile "/base/data.json.tmp" [7] 0o600, none),
        (.Rename "/base/data.json.tmp" "/base/data.json", some [7])] ∧
    ¬ ∀ st ∈ Traced.states oneFileFS
        (atomicWriteFile (traced memFS) "/base/data.json" [7] true ⟨oneFileFS, []⟩).2,
      st.files "/base/data.json" = some [1] ∨ st.files "/base/data.json" = some [7] := by
  refine ⟨by decide, by decide, ?_⟩
  intro h
  have h2 : ((Traced.states oneFileFS
      (atomicWriteFile (traced memFS) "/base/data.json" [7] true ⟨oneFileFS, []⟩).2).all
      fun st => decide (st.files "/base/data.json" = some [1] ∨
        st.files "/base/data.json" = some [7])) = true := by
    rw [List.all_eq_true]
    intro st hst
    exact decide_eq_true (h st hst)
  revert h2
  decide

/-- Witness of C9 as amended, on the same input: the state after the rename to `.bak`, and
the complete run. -/
theorem atomicWriteFile_states_witness :
    ((memFS.Rename "/base/data.json" "/base/data.json.bak" oneFileFS).2.files
          "/base/data.json" = some [1] ∨
      (memFS.Rename "/base/data.json" "/base/data.json.bak" oneFileFS).2.files
          "/base/data.json" = some [7] ∨
      (true = true ∧
        (memFS.Rename "/base/data.json" "/base/data.json.bak" oneFileFS).2.files
          "/base/data.json" = none ∧
        (memFS.Rename "/base/data.json" "/base/data.json.bak" oneFileFS).2.files
          ("/base/data.json" ++ ".bak") = some [1])) ∧
    (atomicWriteFile (traced memFS) "/base/data.json" [7] true ⟨oneFileFS, []⟩).1 = none ∧
    (atomicWriteFile (traced memFS) "/base/data.json" [7] true ⟨oneFileFS, []⟩).2.cur.files
      "/base/data.json" = some [7] :=
  ⟨(atomicWriteFile_states "/base/data.json" [7] true oneFileFS [1] (by decide)).1
      (memFS.Rename "/base/data.json" "/base/data.json.bak" oneFileFS).2
      (List.mem_cons_of_mem _ (List.mem_cons_of_mem _ (List.mem_cons_self _ _))),
    ((atomicWriteFile_states "/base/data.json" [7] true oneFileFS [1] (by decide)).2
      (fun _ => rfl)).1,
    ((atomicWriteFile_states "/base/data.json" [7] true oneFileFS [1] (by decide)).2
      (fun _ => rfl)).2.2⟩

/-- C10. Set is memory-only: after `Set(v)` the next `Get()` returns `v`; the file system
is the one before the call and, on the recorded file system, no call is added to the log;
the path and policy fields and the file system of the store are unchanged; the cache, when
there is one, received `Set("all", v)`. -/
theorem Set_memory_only {σ κ T : Type} (P : Packages κ T) (s : Store σ κ T) (v : T) (w : σ) :
    (s.Set P v w).1.Get = v ∧ (s.Set P v w).2 = w ∧
    (∀ log, ((s.onFs (traced s.fs)).Set P v ⟨w, log⟩).2 = ⟨w, log⟩) ∧
    (s.Set P v w).1.basePath = s.basePath ∧ (s.Set P v w).1.subDir = s.subDir ∧
    (s.Set P v w).1.fileName = s.fileName ∧ (s.Set P v w).1.enableBackup = s.enableBackup ∧
    (s.Set P v w).1.encryptionKey = s.encryptionKey ∧ (s.Set P v w).1.fs = s.fs ∧
    (s.Set P v w).1.cache =
      s.cache.map (fun cache => Cache.Set P.gocache P.nilInterface cache "all" v) := by
  cases hc : s.cache <;> simp [Store.Set, Store.Get, Store.onFs, hc]

/-- With backups on and `Stat` reporting a file at the final path, the atomic write first
calls `Stat` and the rename to `.bak`; when that rename fails it returns an error and makes
no other call, and when it succeeds the calls that follow are the write of `.tmp` and the
rename of `.tmp`. -/
theorem atomicWriteFile_backup_log {σ : Type} (fs : FileSystem σ) (path : String)
    (data : Bytes) (w : σ) (log0 : List (FsCall × σ)) (hst : (fs.Stat path w).1 = none) :
    ((fs.Rename path (path ++ ".bak") (fs.Stat path w).2).1 ≠ none →
      (atomicWriteFile (traced fs) path data true ⟨w, log0⟩).1 ≠ none ∧
      (atomicWriteFile (traced fs) path data true ⟨w, log0⟩).2.log =
        log0 ++ [(.Stat path, (fs.Stat path w).2),
          (.Rename path (path ++ ".bak"),
            (fs.Rename path (path ++ ".bak") (fs.Stat path w).2).2)]) ∧
    ((fs.Rename path (path ++ ".bak") (fs.Stat path w).2).1 = none →
      ∃ rest, (atomicWriteFile (traced fs) path data true ⟨w, log0⟩).2.log =
        log0 ++ [(.Stat path, (fs.Stat path w).2),
          (.Rename path (path ++ ".bak"),
            (fs.Rename path (path ++ ".bak") (fs.Stat path w).2).2)] ++ rest ∧
        rest ≠ [] ∧
        ∀ c ∈ rest, c.1 = .WriteFile (path ++ ".tmp") data 0o600 ∨
          c.1 = .Rename (path ++ ".tmp") path) := by
  rcases h1 : fs.Stat path w with ⟨e1, w1⟩
  rw [h1] at hst
  simp only at hst
  subst hst
  rcases h2 : fs.Rename path (path ++ ".bak") w1 with ⟨e2, w2⟩
  cases e2
  · refine ⟨fun h => absurd rfl h, fun _ => ?_⟩
    rcases h3 : fs.WriteFile (path ++ ".tmp") data 0o600 w2 with ⟨e3, w3⟩
    cases e3
    · rcases h4 : fs.Rename (path ++ ".tmp") path w3 with ⟨e4, w4⟩
      refine ⟨[(.WriteFile (path ++ ".tmp") data 0o600, w3),
        (.Rename (path ++ ".tmp") path, w4)], ?_, by simp, by simp⟩
      cases e4 <;> simp [atomicWriteFile, traced, h1, h2, h3, h4]
    · refine ⟨[(.WriteFile (path ++ ".tmp") data 0o600, w3)], ?_, by simp, by simp⟩
      simp [atomicWriteFile, traced, h1, h2, h3]
  · refine ⟨fun _ => ?_, fun h => by simp at h⟩
    simp [atomicWriteFile, traced, h1, h2]

/-- On the map file system, with backups on and `Stat` reporting a file at the final path,
every state left by the write of `.tmp` or by the rename of `.tmp` has the previous content
at the `.bak` path. -/
theorem atomicWriteFile_backup_content (path : String) (data : Bytes) (m : MemFS)
    (old : Bytes) (hst : (memFS.Stat path m).1 = none) (hold : m.files path = some old) :
    ∀ c ∈ (atomicWriteFile (traced memFS) path data true ⟨m, []⟩).2.log,
      c.1 = .WriteFile (path ++ ".tmp") data 0o600 ∨ c.1 = .Rename (path ++ ".tmp") path →
        c.2.files (path ++ ".bak") = some old := by
  have h1 : m.faults (.Stat path) = none := by
    cases h : m.faults (.Stat path) with
    | none => rfl
    | some e => simp [memFS, h] at hst
  cases h2 : m.faults (.Rename path (path ++ ".bak")) <;>
  cases h3 : m.faults (.WriteFile (path ++ ".tmp") data 0o600) <;>
  cases h4 : m.faults (.Rename (path ++ ".tmp") path) <;>
  simp [atomicWriteFile, traced, memFS, h1, h2, h3, h4, hold, setFile,
    tmp_ne_final, bak_ne_final, tmp_ne_bak, (tmp_ne_final path).symm,
    (bak_ne_final path).symm, (tmp_ne_bak path).symm]

/-- On the recorded file system `Save` either returns an error after the `MkdirAll` call
alone, or runs the atomic write of some payload after it and returns its result, wrapped
when it is an error. -/
theorem Save_traced_cases {σ κ T : Type} (P : Packages κ T) (s : Store σ κ T) (w : σ)
    (rnd : RandReader) :
    (((s.onFs (traced s.fs)).Save P ⟨w, []⟩ rnd).1 ≠ none ∧
      ((s.onFs (traced s.fs)).Save P ⟨w, []⟩ rnd).2.1.log =
        [(.MkdirAll (P.Dir (s.filePath P)) 0o755,
          (s.fs.MkdirAll (P.Dir (s.filePath P)) 0o755 w).2)]) ∨
    ∃ payload,
      ((s.onFs (traced s.fs)).Save P ⟨w, []⟩ rnd).2.1 =
        (atomicWriteFile (traced s.fs) (s.filePath P) payload s.enableBackup
          ⟨(s.fs.MkdirAll (P.Dir (s.filePath P)) 0o755 w).2,
            [(.MkdirAll (P.Dir (s.filePath P)) 0o755,
              (s.fs.MkdirAll (P.Dir (s.filePath P)) 0o755 w).2)]⟩).2 ∧
      (((s.onFs (traced s.fs)).Save P ⟨w, []⟩ rnd).1 = none ↔
        (atomicWriteFile (traced s.fs) (s.filePath P) payload s.enableBackup
          ⟨(s.fs.MkdirAll (P.Dir (s.filePath P)) 0o755 w).2,
            [(.MkdirAll (P.Dir (s.filePath P)) 0o755,
              (s.fs.MkdirAll (P.Dir (s.filePath P)) 0o755 w).2)]⟩).1 = none) := by
  have hfs : (s.onFs (traced s.fs)).fs = traced s.fs := rfl
  have hd : (s.onFs (traced s.fs)).data = s.data := rfl
  have hk : (s.onFs (traced s.fs)).encryptionKey = s.encryptionKey := rfl
  have hb : (s.onFs (traced s.fs)).enableBackup = s.enableBackup := rfl
  have hmk : (traced s.fs).MkdirAll (P.Dir (s.filePath P)) 0o755 ⟨w, []⟩ =
      ((s.fs.MkdirAll (P.Dir (s.filePath P)) 0o755 w).1,
        ⟨(s.fs.MkdirAll (P.Dir (s.filePath P)) 0o755 w).2,
          [(.MkdirAll (P.Dir (s.filePath P)) 0o755,
            (s.fs.MkdirAll (P.Dir (s.filePath P)) 0o755 w).2)]⟩) := rfl
  simp only [Store.Save, onFs_filePath, hfs, hd, hk, hb, hmk]
  cases s.fs.MkdirAll (P.Dir (s.filePath P)) 0o755 w with
  | mk e wm =>
    cases e with
    | some e => left; simp
    | none =>
      simp only
      cases P.MarshalIndent s.data with
      | error e => left; simp
      | ok bytes =>
        simp only
        by_cases hkey : s.encryptionKey = ""
        · right
          refine ⟨bytes, ?_⟩
          simp only [hkey, ne_eq, not_true_eq_false, if_false]
          rcases atomicWriteFile (traced s.fs) (s.filePath P) bytes s.enableBackup
            ⟨wm, [(.MkdirAll (P.Dir (s.filePath P)) 0o755, wm)]⟩ with ⟨e, t⟩
          cases e <;> simp
        · simp only [ne_eq, hkey, not_false_eq_true, if_true]
          rcases EncryptData P.crypto s.encryptionKey bytes rnd with ⟨enc, rnd1⟩
          cases enc with
          | error e => left; simp
          | ok enc =>
            right
            refine ⟨enc, ?_⟩
            simp only
            rcases atomicWriteFile (traced s.fs) (s.filePath P) enc s.enableBackup
              ⟨wm, [(.MkdirAll (P.Dir (s.filePath P)) 0o755, wm)]⟩ with ⟨e, t⟩
            cases e <;> simp

/-- What `Save` does with backups on when `Stat` reports a file at the final path. Its
calls on the recorded file system are: the `MkdirAll` alone, with an error returned; or
`MkdirAll`, `Stat` and the failed rename to `.bak`, with an error returned; or `MkdirAll`,
`Stat`, the successful rename to `.bak` and only then the write of `.tmp` and the rename of
`.tmp`. So a `WriteFile` or a rename onto the final path comes after the previous file has
been moved to `.bak` (on the map file system the `.bak` path then holds the previous bytes),
and when the rename to `.bak` fails `Save` returns an error with no `WriteFile` and no other
`Rename`. -/
theorem Save_backup_first {σ κ T : Type} (P : Packages κ T) (s : Store σ κ T)
    (hb : s.enableBackup = true) (w : σ) (rnd : RandReader)
    (hst : (s.fs.Stat (s.filePath P) (s.fs.MkdirAll (P.Dir (s.filePath P)) 0o755 w).2).1 =
      none) :
    let path := s.filePath P
    let wm := (s.fs.MkdirAll (P.Dir path) 0o755 w).2
    let w1 := (s.fs.Stat path wm).2
    let rn := s.fs.Rename path (path ++ ".bak") w1
    let r := (s.onFs (traced s.fs)).Save P ⟨w, []⟩ rnd
    let head : List (FsCall × σ) := [(.MkdirAll (P.Dir path) 0o755, wm)]
    let backup : List (FsCall × σ) := [(.Stat path, w1), (.Rename path (path ++ ".bak"), rn.2)]
    ((r.1 ≠ none ∧ r.2.1.log = head) ∨
      (rn.1 ≠ none ∧ r.1 ≠ none ∧ r.2.1.log = head ++ backup) ∨
      (rn.1 = none ∧ ∃ payload rest, r.2.1.log = head ++ backup ++ rest ∧ rest ≠ [] ∧
        ∀ c ∈ rest, c.1 = .WriteFile (path ++ ".tmp") payload 0o600 ∨
          c.1 = .Rename (path ++ ".tmp") path)) ∧
    (rn.1 ≠ none → r.1 ≠ none ∧
      ∀ c ∈ r.2.1.log, c.1 = .MkdirAll (P.Dir path) 0o755 ∨ c.1 = .Stat path ∨
        c.1 = .Rename path (path ++ ".bak")) ∧
    (∀ (m : MemFS) (data old : Bytes), (memFS.Stat path m).1 = none →
      m.files path = some old →
      ∀ c ∈ (atomicWriteFile (traced memFS) path data true ⟨m, []⟩).2.log,
        c.1 = .WriteFile (path ++ ".tmp") data 0o600 ∨ c.1 = .Rename (path ++ ".tmp") path →
          c.2.files (path ++ ".bak") = some old) := by
  intro path wm w1 rn r head backup
  have main : (r.1 ≠ none ∧ r.2.1.log = head) ∨
      (rn.1 ≠ none ∧ r.1 ≠ none ∧ r.2.1.log = head ++ backup) ∨
      (rn.1 = none ∧ ∃ payload rest, r.2.1.log = head ++ backup ++ rest ∧ rest ≠ [] ∧
        ∀ c ∈ rest, c.1 = .WriteFile (path ++ ".tmp") payload 0o600 ∨
          c.1 = .Rename (path ++ ".tmp") path) := by
    rcases Save_traced_cases P s w rnd with h | ⟨payload, h1, h2⟩
    · exact Or.inl h
    · right
      rw [hb] at h1 h2
      obtain ⟨hfail, hok⟩ := atomicWriteFile_backup_log s.fs path payload wm head hst
      by_cases hrn : rn.1 = none
      · right
        obtain ⟨rest, hlog, hne, hrest⟩ := hok hrn
        exact ⟨hrn, payload, rest, by rw [h1]; exact hlog, hne, hrest⟩
      · left
        obtain ⟨herr, hlog⟩ := hfail hrn
        exact ⟨hrn, fun h => herr (h2.mp h), by rw [h1]; exact hlog⟩
  refine ⟨main, ?_, ?_⟩
  · intro hrn
    rcases main with ⟨h1, h2⟩ | ⟨-, h1, h2⟩ | ⟨h, -⟩
    · refine ⟨h1, ?_⟩
      rw [h2]
      simp [head]
    · refine ⟨h1, ?_⟩
      rw [h2]
      simp [head, backup]
    · exact absurd h hrn
  · intro m data old hm hold
    exact atomicWriteFile_backup_content path data m old hm hold

/-- The rename of "/base/data.json" to its `.bak` path fails: `Save` returns the error and
has called `MkdirAll`, `Stat` and that `Rename` only. -/
theorem Save_backup_first_witness :
    ((sampleStore true "" 7).onFs (traced memFS)).Save samplePackages ⟨renameFaultFS, []⟩ [] =
        (some (.wrap "failed to write JSON data"
          (.wrap "failed to rename old file to .bak" (.new "permission denied"))),
          ⟨renameFaultFS, [(.MkdirAll "/base/data.json/.." 0o755, renameFaultFS),
            (.Stat "/base/data.json", renameFaultFS),
            (.Rename "/base/data.json" "/base/data.json.bak", renameFaultFS)]⟩, []) ∧
    (((sampleStore true "" 7).onFs (traced memFS)).Save samplePackages
        ⟨renameFaultFS, []⟩ []).1 ≠ none :=
  ⟨rfl, ((Save_backup_first samplePackages (sampleStore true "" 7) rfl renameFaultFS []
    (by decide)).2.1 (by decide)).1⟩

/-- C12 as amended. Cache set-then-get over the TTL map: after `Set(k, v)`, at any later
time at which the entry for `k` has not expired, swept or not, `Get(k)` returns `(v, true)`
for every `v` that is not the nil value of an interface type `T`, and the type assertion
succeeds on what `Set` stored; for the nil value of an interface type the assertion fails
and `Get` returns the zero value and `false`. -/
theorem Cache_Set_Get {T : Type} (nilInterface : T → Bool) (zero : T)
    (cache : Cache (TTLCache (GoAny T))) (key : String) (v : T) (elapsed : Nat) (sweep : Bool)
    (hlive : ((Cache.Set ttlCache nilInterface cache key v).c.later elapsed false).expired key =
      false) :
    Cache.Get ttlCache zero
        { c := (Cache.Set ttlCache nilInterface cache key v).c.later elapsed sweep } key =
      (if nilInterface v then (zero, false) else (v, true)) ∧
    (nilInterface v = false → assertType (toAny nilInterface v) = some v) ∧
    (nilInterface v = true → assertType (toAny nilInterface v) = none) := by
  refine ⟨?_, ?_, ?_⟩
  · have he : ¬ (0 < (if 0 < cache.c.defaultExpiration then
          cache.c.now + cache.c.defaultExpiration else 0) ∧
        (if 0 < cache.c.defaultExpiration then
          cache.c.now + cache.c.defaultExpiration else 0) < cache.c.now + (elapsed : Int)) := by
      simpa [Cache.Set, ttlCache, TTLCache.later, TTLCache.expired, Item.Expired,
        DefaultExpiration] using hlive
    have he1 : (if 0 < cache.c.defaultExpiration then
          cache.c.now + cache.c.defaultExpiration else 0) ≤ 0 ∨
        cache.c.now + (elapsed : Int) ≤ (if 0 < cache.c.defaultExpiration then
          cache.c.now + cache.c.defaultExpiration else 0) := by
      simpa only [not_lt] using not_and_or.mp he
    cases sweep <;> cases hn : nilInterface v <;>
      simp [Cache.Get, Cache.Set, ttlCache, TTLCache.later, toAny, assertType, hn,
        Option.filter, Item.Expired, DefaultExpiration, he, he1]
  · intro hn
    simp [toAny, assertType, hn]
  · intro hn
    simp [toAny, assertType, hn]

/-- C12, counterexample. On a `Cache[error]`, with `error` the values `nil` and the non-nil
errors, `Set("mykey", nil)` stores the nil interface value; the entry has not expired, the
type assertion in `Get` fails and `Get("mykey")` returns `(nil, false)`, not `(nil, true)`. -/
theorem Cache_Set_Get_counterexample :
    ((Cache.Set ttlCache Option.isNone
        (NewCache ttlCache 300 60 : Cache (TTLCache (GoAny (Option GoError))))
        "mykey" none).c.later 0 false).expired "mykey" = false ∧
    assertType (toAny Option.isNone (none : Option GoError)) = none ∧
    Cache.Get ttlCache (none : Option GoError)
      (Cache.Set ttlCache Option.isNone (NewCache ttlCache 300 60) "mykey" none) "mykey" =
        (none, false) ∧
    Cache.Get ttlCache (none : Option GoError)
      (Cache.Set ttlCache Option.isNone (NewCache ttlCache 300 60) "mykey" none) "mykey" ≠
        (none, true) := by
  decide

/-- Witness of C12 as amended: a `Cache[int]` with a default expiration of 300, read 100
later, after a sweep. -/
theorem Cache_Set_Get_witness :
    Cache.Get ttlCache (0 : Nat)
        { c := (Cache.Set ttlCache (fun _ => false) (NewCache ttlCache 300 60) "mykey"
          42).c.later 100 true } "mykey" = (42, true) ∧
      assertType (toAny (fun _ => false) (42 : Nat)) = some 42 :=
  ⟨(Cache_Set_Get (fun _ => false) (0 : Nat) (NewCache ttlCache 300 60) "mykey" 42 100 true
      (by decide)).1,
    (Cache_Set_Get (fun _ => false) (0 : Nat) (NewCache ttlCache 300 60) "mykey" 42 100 true
      (by decide)).2.1 rfl⟩

/-- C11. Save never overwrites without the requested backup, at the input where the code
breaks it: backups on, a file at the final path, `Stat` of it failing with "permission
denied" (not a "not exists" error), `WriteFile` and `Rename` succeeding. The backup is made
only when `Stat` returns no error, so `Save` skips it, writes `.tmp`, renames it onto the
final path and returns no error: the previous bytes are gone and there is no `.bak`.
`Load` does tell a "not exists" error of `Stat` from any other. -/
theorem Save_stat_error_overwrites :
    statFaultFS.files "/base/data.json" = some [1] ∧
    (memFS.Stat "/base/data.json" statFaultFS).1 = some (.new "permission denied") ∧
    memFS.IsNotExist (memFS.Stat "/base/data.json" statFaultFS).1 = false ∧
    (((sampleStore true "" 7).onFs (traced memFS)).Save samplePackages
      ⟨statFaultFS, []⟩ []).1 = none ∧
    (((sampleStore true "" 7).onFs (traced memFS)).Save samplePackages
      ⟨statFaultFS, []⟩ []).2.1.log.map Prod.fst =
      [.MkdirAll "/base/data.json/.." 0o755, .Stat "/base/data.json",
        .WriteFile "/base/data.json.tmp" [7] 0o600,
        .Rename "/base/data.json.tmp" "/base/data.json"] ∧
    (((sampleStore true "" 7).onFs (traced memFS)).Save samplePackages
      ⟨statFaultFS, []⟩ []).2.1.cur.files "/base/data.json" = some [7] ∧
    (((sampleStore true "" 7).onFs (traced memFS)).Save samplePackages
      ⟨statFaultFS, []⟩ []).2.1.cur.files "/base/data.json.bak" = none ∧
    ((sampleStore true "" 7).Load samplePackages statFaultFS).map (fun r => r.1) =
      some (some (.wrap "failed to stat file" (.new "permission denied"))) := by
  decide

end Jankdb
